import Mathlib

/-!
Verification development for the trading212-tracker export-orchestration and
CSV-ingestion pipeline.  JavaScript strings are modelled as `List Char`
(`JStr`), CSV rows as association lists from column name to value, export
descriptors as structures mirroring the JSON objects the remote API returns,
and the orchestration loops as explicit folds over year lists with an oracle
supplying each HTTP attempt's outcome.  JavaScript `number` values that the
analysed claims exercise are exact decimals, so they are modelled as `ℚ`;
`Date` values are modelled by their UTC components plus an epoch-millisecond
key.
-/

namespace T212

/-- JavaScript strings, modelled as lists of characters. -/
abbrev JStr := List Char

/-- Convenience conversion from Lean string literals to the model's strings. -/
def js (s : String) : JStr := s.toList

/-- Whitespace test used by the model of `String.prototype.trim`. -/
def isWs (c : Char) : Bool := c = ' ' || c = '\t' || c = '\n' || c = '\r'

/-- Model of `s.trim()`: strip leading and trailing whitespace. -/
def jsTrim (s : JStr) : JStr :=
  ((s.dropWhile isWs).reverse.dropWhile isWs).reverse

/-- ASCII lower-casing of one character (model of `toLowerCase` per char). -/
def lowerChar (c : Char) : Char :=
  if 'A' ≤ c ∧ c ≤ 'Z' then Char.ofNat (c.toNat + 32) else c

/-- Model of `s.toLowerCase()` (ASCII range, which covers all uses). -/
def jsLower (s : JStr) : JStr := s.map lowerChar

/-- Boolean prefix test: `isPrefixOfB needle hay`. -/
def isPrefixOfB : JStr → JStr → Bool
  | [], _ => true
  | _ :: _, [] => false
  | a :: as, b :: bs => a = b && isPrefixOfB as bs

/-- Model of `hay.includes(needle)`: substring containment. -/
def containsSub (needle : JStr) : JStr → Bool
  | [] => isPrefixOfB needle []
  | c :: rest => isPrefixOfB needle (c :: rest) || containsSub needle rest

/-- Stable insertion into a sorted list (used to model `Array.sort`). -/
def insertBy {α : Type} (le : α → α → Bool) (a : α) : List α → List α
  | [] => [a]
  | b :: l => if le a b then a :: b :: l else b :: insertBy le a l

/--
Model of `Array.prototype.sort(comparator)`: a stable comparison sort
(ECMAScript requires stability; the result for an inconsistent comparator is
implementation-defined, and any stable comparison sort exhibits the same
behaviour on the inputs considered here).
-/
def jsSort {α : Type} (le : α → α → Bool) : List α → List α
  | [] => []
  | a :: l => insertBy le a (jsSort le l)

/-- A parsed CSV row: mapping from column header to string value,
in header order. -/
abbrev Row := List (JStr × JStr)

/-- Row field access, `row[key]` (`none` models JavaScript `undefined`). -/
def rowGet (r : Row) (k : JStr) : Option JStr :=
  (r.find? (fun p => p.1 = k)).map (·.2)

/-! ### CSV parser (`parseCsv` / `parseCSVLine` in `HistoryDownload`) -/

/--
Character loop of `parseCSVLine`: double-quote toggles quote state, a doubled
quote inside quotes is an escaped literal quote, a comma outside quotes ends
the field, and each field is pushed trimmed (`result.push(current.trim())`).
-/
def parseCSVLineAux : JStr → Bool → JStr → List JStr → List JStr
  | [], _, cur, acc => acc ++ [jsTrim cur]
  | '"' :: '"' :: rest, true, cur, acc => parseCSVLineAux rest true (cur ++ ['"']) acc
  | '"' :: rest, true, cur, acc => parseCSVLineAux rest false cur acc
  | '"' :: rest, false, cur, acc => parseCSVLineAux rest true cur acc
  | ',' :: rest, true, cur, acc => parseCSVLineAux rest true (cur ++ [',']) acc
  | ',' :: rest, false, cur, acc => parseCSVLineAux rest false [] (acc ++ [jsTrim cur])
  | c :: rest, inQ, cur, acc => parseCSVLineAux rest inQ (cur ++ [c]) acc

/-- `parseCSVLine(line)`: split one CSV line into trimmed fields,
respecting quoting. -/
def parseCSVLine (line : JStr) : List JStr := parseCSVLineAux line false [] []

/-- Model of `text.split('\n')` (keeps empty chunks, as JavaScript does). -/
def splitNl : JStr → List JStr
  | [] => [[]]
  | c :: rest =>
    let r := splitNl rest
    if c = '\n' then [] :: r
    else
      match r with
      | [] => [[c]]
      | h :: t => (c :: h) :: t

/--
`headers.forEach((header, index) => { row[header] = values[index] || '' })`:
build a row from the header list and the value list, filling missing trailing
values with the empty string and dropping extra values.
-/
def buildRow : List JStr → List JStr → Row
  | [], _ => []
  | h :: hs, [] => (h, []) :: buildRow hs []
  | h :: hs, v :: vs => (h, v) :: buildRow hs vs

/--
Data-row loop of `parseCsv`: a row is accepted when its field count is within
2 of the header count (`Math.abs(values.length - headers.length) <= 2`),
otherwise it is skipped and the skipped-row counter is incremented.
Returns the accepted rows in file order together with the skipped-row count.
-/
def parseCsvLines (headers : List JStr) : List JStr → List Row × Nat
  | [] => ([], 0)
  | line :: rest =>
    let trimmed := jsTrim line
    let res := parseCsvLines headers rest
    if trimmed = [] then (res.1, res.2 + 1)
    else
      let values := parseCSVLine trimmed
      if Nat.dist values.length headers.length ≤ 2 then
        (buildRow headers values :: res.1, res.2)
      else (res.1, res.2 + 1)

/--
`parseCsv(csvText)`: split on newlines, drop blank lines, take the first line
as the header row and parse the remaining lines as data rows.  Fewer than two
non-blank lines yield no rows.  The second component is the skipped-row count.
-/
def parseCsv (text : JStr) : List Row × Nat :=
  let lines := (splitNl text).filter (fun l => !(jsTrim l).isEmpty)
  if lines.length < 2 then ([], 0)
  else
    match lines with
    | [] => ([], 0)
    | h :: rest => parseCsvLines (parseCSVLine h) rest

/-! ### CSV serialization (spec's round-trip property, no source counterpart) -/

/-- Double every `"` in a field (spec: "doubling embedded quotes"). -/
def escQuotes : JStr → JStr
  | [] => []
  | c :: rest => if c = '"' then '"' :: '"' :: escQuotes rest else c :: escQuotes rest

/--
Modelled from the spec: the serializer of the CSV round-trip property (the
repository has no serializer).  A value containing a comma or a quote is
wrapped in double quotes with embedded quotes doubled; otherwise it is
emitted verbatim.
-/
def encodeField (v : JStr) : JStr :=
  if v.contains ',' || v.contains '"' then '"' :: (escQuotes v ++ ['"']) else v

/-- Join encoded fields of one record with commas. -/
def encodeLine (vs : List JStr) : JStr :=
  match vs with
  | [] => []
  | [v] => encodeField v
  | v :: rest => encodeField v ++ ',' :: encodeLine rest

/-- Join lines with newlines. -/
def joinNl : List JStr → JStr
  | [] => []
  | [l] => l
  | l :: rest => l ++ '\n' :: joinNl rest

/--
Modelled from the spec: serialize a header list and a sequence of records
(each a list of values in header order) to CSV text.
-/
def serializeCsv (headers : List JStr) (records : List (List JStr)) : JStr :=
  joinNl (encodeLine headers :: records.map encodeLine)

/-! ### Dates and export descriptors -/

/-- The UTC components a JavaScript `Date` exposes through its UTC getters. -/
structure DT where
  year : Nat
  month : Nat
  day : Nat
  hour : Nat
  minute : Nat
  second : Nat
deriving DecidableEq, Repr

/-- A JavaScript `Date`: epoch milliseconds plus its UTC components. -/
structure Stamp where
  ms : Int
  dt : DT
deriving DecidableEq, Repr

/-- An export descriptor as `HistoryExport` sees it
(`reportId`, `status`, `timeFrom`, `timeTo`; fields may be absent). -/
structure ExportItem where
  reportId : Option JStr
  status : Option JStr
  timeFrom : Option Stamp
  timeTo : Option Stamp
deriving DecidableEq, Repr

/-- `exp.status?.toLowerCase() === 'finished'`. -/
def isFinished (e : ExportItem) : Bool :=
  match e.status with
  | some s => jsLower s = js "finished"
  | none => false

/-- JavaScript truthiness of an optional string (`undefined` and `''`
are falsy). -/
def truthy : Option JStr → Bool
  | some s => !s.isEmpty
  | none => false

/--
`isCurrentYearOutdated(exportEndDate)`: the current-year export is outdated
when it ends more than 7 days before today
(`Math.floor((today - exportEnd) / 86400000) > 7`).
-/
def isCurrentYearOutdated (todayMs : Int) (exportEndMs : Int) : Bool :=
  Int.fdiv (todayMs - exportEndMs) 86400000 > 7

/-- Result of `getYearFromTimeRange`: the covered year and the
outdatedness flag. -/
structure YearResult where
  year : Nat
  isOutdated : Bool
deriving DecidableEq, Repr

/--
`getYearFromTimeRange(timeFrom, timeTo)` of `HistoryExport`: a full-year
export starts January 1st at midnight UTC and ends December 31st of the same
year (any time of day); a current-year export only needs to start January 1st
at midnight of the current year.  The outdatedness flag is computed only for
current-year exports.  Missing or invalid dates yield `none`.
-/
def getYearFromTimeRange (currentYear : Nat) (todayMs : Int)
    (timeFrom timeTo : Option Stamp) : Option YearResult :=
  match timeFrom, timeTo with
  | some f, some t =>
    let fd := f.dt
    let td := t.dt
    let isValidFullYear : Bool :=
      fd.year = td.year && fd.month = 0 && fd.day = 1 &&
      fd.hour = 0 && fd.minute = 0 && fd.second = 0 &&
      td.month = 11 && td.day = 31
    let isCurrentYearExport : Bool :=
      fd.year = currentYear && td.year = currentYear &&
      fd.month = 0 && fd.day = 1 &&
      fd.hour = 0 && fd.minute = 0 && fd.second = 0
    if isValidFullYear || isCurrentYearExport then
      some ⟨fd.year, isCurrentYearExport && isCurrentYearOutdated todayMs t.ms⟩
    else none
  | _, _ => none

/--
The `fullYearExportsMap` built by `loadExistingExports`: keep finished
descriptors with a truthy `reportId` covering a full year, and for each year
keep the FIRST descriptor encountered (`!fullYearExportsMap.has(year)`),
skipping later duplicates of the same year.
-/
def fullYearExportsMap (currentYear : Nat) (todayMs : Int)
    (exports : List ExportItem) : List (Nat × ExportItem) :=
  (exports.filter (fun e =>
      isFinished e && truthy e.reportId &&
      (getYearFromTimeRange currentYear todayMs e.timeFrom e.timeTo).isSome)).foldl
    (fun m e =>
      match getYearFromTimeRange currentYear todayMs e.timeFrom e.timeTo with
      | some yr => if (m.lookup yr.year).isSome then m else m ++ [(yr.year, e)]
      | none => m) []

/-- Insertion into the `coveredYears` `Set` (insertion-ordered, no
duplicates). -/
def setAdd (l : List Nat) (y : Nat) : List Nat :=
  if y ∈ l then l else l ++ [y]

/-- `Map.set`: update an existing key in place or append a new binding. -/
def mapSet (m : List (Nat × Option JStr)) (y : Nat) (v : Option JStr) :
    List (Nat × Option JStr) :=
  match m with
  | [] => [(y, v)]
  | (k, w) :: rest => if k = y then (k, v) :: rest else (k, w) :: mapSet rest y v

/--
The loop body of `getExistingYearsCovered`: a non-outdated full-year
descriptor marks its year covered UNLESS it is the current year, which is
never marked covered.
-/
def coveredStep (currentYear : Nat) (todayMs : Int)
    (s : List Nat × List (Nat × Option JStr)) (e : ExportItem) :
    List Nat × List (Nat × Option JStr) :=
  match getYearFromTimeRange currentYear todayMs e.timeFrom e.timeTo with
  | some yr =>
    if !yr.isOutdated then
      if yr.year ≠ currentYear then
        (setAdd s.1 yr.year, mapSet s.2 yr.year e.reportId)
      else s
    else s
  | none => s

/--
`getExistingYearsCovered` of `HistoryExport`: walk the finished descriptors
with `coveredStep`.  Returns the covered-year set (insertion order) and the
year-to-reportId map.
-/
def getExistingYearsCovered (currentYear : Nat) (todayMs : Int)
    (exports : List ExportItem) : List Nat × List (Nat × Option JStr) :=
  (exports.filter isFinished).foldl (coveredStep currentYear todayMs) ([], [])

/-- The ascending sort `Array.from(coveredYears).sort((a, b) => a - b)`
applied to the covered-year set. -/
def coveredYearsSorted (currentYear : Nat) (todayMs : Int)
    (exports : List ExportItem) : List Nat :=
  jsSort (fun a b => a ≤ b) (getExistingYearsCovered currentYear todayMs exports).1

/-- `requestedYears`: all years from `startYear` to `currentYear`
inclusive. -/
def requestedYears (startYear currentYear : Nat) : List Nat :=
  (List.range (currentYear + 1 - startYear)).map (startYear + ·)

/-- `yearsToExport = requestedYears.filter(y => !existingYears.includes(y))`. -/
def yearsToExport (startYear currentYear : Nat) (todayMs : Int)
    (exports : List ExportItem) : List Nat :=
  (requestedYears startYear currentYear).filter
    (fun y => y ∉ coveredYearsSorted currentYear todayMs exports)

/-! ### `HistoryDownload`: year extraction and one-descriptor-per-year merge -/

/-- A descriptor as `HistoryDownload` sees it; rows tagged with provenance
may carry `reportTimeTo` instead of `timeTo`. -/
structure DlItem where
  reportId : JStr
  timeFrom : Option Stamp
  timeTo : Option Stamp
  reportTimeTo : Option Stamp
  status : JStr
  downloadLink : Option JStr
deriving DecidableEq, Repr

/--
`getYearFromExport(exportItem)` of `HistoryDownload`: same full-year /
current-year predicates as `getYearFromTimeRange`, without the outdatedness
flag; a missing `timeFrom` yields `null`.
-/
def getYearFromExport (currentYear : Nat) (e : DlItem) : Option Nat :=
  match e.timeFrom with
  | none => none
  | some f =>
    match e.timeTo with
    | none => none
    | some t =>
      let fd := f.dt
      let td := t.dt
      let isValidFullYear : Bool :=
        fd.year = td.year && fd.month = 0 && fd.day = 1 &&
        fd.hour = 0 && fd.minute = 0 && fd.second = 0 &&
        td.month = 11 && td.day = 31
      let isCurrentYearExport : Bool :=
        fd.year = currentYear && td.year = currentYear &&
        fd.month = 0 && fd.day = 1 &&
        fd.hour = 0 && fd.minute = 0 && fd.second = 0
      if isValidFullYear || isCurrentYearExport then some fd.year else none

/-- `new Date(exp.timeTo || exp.reportTimeTo || '1970-01-01')` as epoch
milliseconds. -/
def endMs (e : DlItem) : Int :=
  match e.timeTo with
  | some t => t.ms
  | none =>
    match e.reportTimeTo with
    | some t => t.ms
    | none => 0

/-- `Map.set` on the year-to-descriptor map: replace in place, keep order. -/
def replaceYear : List (Nat × DlItem) → Nat → DlItem → List (Nat × DlItem)
  | [], _, _ => []
  | (k, v) :: rest, y, e =>
    if k = y then (k, e) :: rest else (k, v) :: replaceYear rest y e

/--
One phase of the `yearExportMap` merge in `HistoryDownload`'s effect: walk
the descriptors; a descriptor with no covered year is dropped; the first
descriptor for a year is inserted; a later descriptor for the same year
replaces the retained one exactly when its end date is strictly later
(`newEndDate > existingEndDate`).
-/
def mergeYearPhase (currentYear : Nat) (m : List (Nat × DlItem)) :
    List DlItem → List (Nat × DlItem)
  | [] => m
  | e :: rest =>
    match getYearFromExport currentYear e with
    | none => mergeYearPhase currentYear m rest
    | some y =>
      match m.lookup y with
      | none => mergeYearPhase currentYear (m ++ [(y, e)]) rest
      | some ex =>
        if endMs e > endMs ex then
          mergeYearPhase currentYear (replaceYear m y e) rest
        else mergeYearPhase currentYear m rest

/-! ### Export orchestration run (`exportHistoryByYear` /
`handleExportHistory`) -/

/-- Outcome of one `service.exportHistory` attempt: a report id, or an error
carrying the optional HTTP status of `error.response`. -/
inductive AttemptOut where
  | ok (reportId : JStr)
  | err (status : Option Nat) (msg : JStr)
deriving DecidableEq, Repr

/-- A thrown JavaScript error as the orchestration loop inspects it:
`error.response?.status` and `error.message`. -/
structure JsErr where
  status : Option Nat
  msg : JStr
deriving DecidableEq, Repr

/-- The message of the wrapped rate-limit error thrown after retries
exhaust; the wrapping `new Error(...)` carries NO `response` field. -/
def rateLimitMsg : JStr := js "Rate limit exceeded (429)"

/-- An entry of the `reports` result array: a successful export record or a
failure record `{year, error, status: 'failed'}`. -/
inductive Report where
  | exported (year : Nat) (reportId : JStr)
  | failed (year : Nat) (error : JStr)
deriving DecidableEq, Repr

/--
The attempt recursion of `exportHistoryByYear`, structured on the number of
retries still allowed (`remaining = 2 - retryCount`, so `retryCount < 2` is
exactly `remaining > 0`): on a 429 with retries left, wait
`Math.min(20000 * 2 ** retryCount, 60000)` ms and retry; on a 429 with
retries exhausted, throw a fresh `Error` WITHOUT a `response` field; on any
other error, rethrow it.  Returns the outcome and the list of backoff delays
waited, in order.
-/
def exportAttempts (o : Nat → AttemptOut) (year : Nat) :
    Nat → Nat → Except JsErr Report × List Nat
  | remaining, retryCount =>
    match o retryCount with
    | .ok rid => (Except.ok (.exported year rid), [])
    | .err st msg =>
      if st = some 429 then
        match remaining with
        | r + 1 =>
          let d := min (20000 * 2 ^ retryCount) 60000
          let next := exportAttempts o year r (retryCount + 1)
          (next.1, d :: next.2)
        | 0 => (Except.error ⟨none, rateLimitMsg⟩, [])
      else (Except.error ⟨st, msg⟩, [])

/-- `exportHistoryByYear(year, retryCount)` (top-level calls use
`retryCount = 0`). -/
def exportHistoryByYear (o : Nat → AttemptOut) (year : Nat)
    (retryCount : Nat) : Except JsErr Report × List Nat :=
  exportAttempts o year (2 - retryCount) retryCount

instance : DecidableEq (Except JsErr Report) := fun a b =>
  match a, b with
  | .ok x, .ok y =>
    if h : x = y then isTrue (by rw [h])
    else isFalse (by intro hh; injection hh; contradiction)
  | .error x, .error y =>
    if h : x = y then isTrue (by rw [h])
    else isFalse (by intro hh; injection hh; contradiction)
  | .ok _, .error _ => isFalse (fun hh => Except.noConfusion hh)
  | .error _, .ok _ => isFalse (fun hh => Except.noConfusion hh)

/-- State threaded through `handleExportHistory`'s year loop. -/
structure RunState where
  reports : List Report
  successfulReportIds : List JStr
  baseDelay : Nat
  waits : List Nat
deriving DecidableEq, Repr

/--
The body of `handleExportHistory`'s loop for one year.  On success the report
is recorded, a truthy report id is collected, and (between years) the base
delay is awaited.  On failure a `{year, error, status: 'failed'}` record is
appended and the loop continues; the base delay is doubled (capped at
120000 ms) only when the caught error's `response` status is 429.
-/
def stepYear (o : Nat → Nat → AttemptOut) (isLast : Bool) (s : RunState)
    (year : Nat) : RunState :=
  let r := exportHistoryByYear (o year) year 0
  match r.1 with
  | .ok rep =>
    { reports := s.reports ++ [rep]
      successfulReportIds :=
        match rep with
        | .exported _ rid =>
          if !rid.isEmpty then s.successfulReportIds ++ [rid]
          else s.successfulReportIds
        | .failed _ _ => s.successfulReportIds
      baseDelay := s.baseDelay
      waits := s.waits ++ r.2 ++ if !isLast then [s.baseDelay] else [] }
  | .error e =>
    if e.status = some 429 then
      let nd := min (s.baseDelay * 2) 120000
      { reports := s.reports ++ [.failed year e.msg]
        successfulReportIds := s.successfulReportIds
        baseDelay := nd
        waits := s.waits ++ r.2 ++ [nd] }
    else
      { reports := s.reports ++ [.failed year e.msg]
        successfulReportIds := s.successfulReportIds
        baseDelay := s.baseDelay
        waits := s.waits ++ r.2 ++ [s.baseDelay] }

/-- The year loop (`for (let i = 0; i < yearsToExport.length; i++)`);
the last iteration skips the inter-request wait. -/
def runAux (o : Nat → Nat → AttemptOut) : List Nat → RunState → RunState
  | [], s => s
  | [y], s => stepYear o true s y
  | y :: rest, s => runAux o rest (stepYear o false s y)

/-- A whole orchestration run over `yearsToExport`, starting from the fresh
state with `baseDelay = 20000`. -/
def runExport (o : Nat → Nat → AttemptOut) (years : List Nat) : RunState :=
  runAux o years ⟨[], [], 20000, []⟩

/-- The report one year's processing contributes to the `reports` array. -/
def reportFor (o : Nat → Nat → AttemptOut) (y : Nat) : Report :=
  match (exportHistoryByYear (o y) y 0).1 with
  | .ok r => r
  | .error e => .failed y e.msg

/-- The report ids one year's processing contributes to
`successfulReportIds`. -/
def ridsFor (o : Nat → Nat → AttemptOut) (y : Nat) : List JStr :=
  match (exportHistoryByYear (o y) y 0).1 with
  | .ok (.exported _ rid) => if !rid.isEmpty then [rid] else []
  | .ok (.failed _ _) => []
  | .error _ => []

/-! ### Ingestion sort (`allCsvData.sort(...)` in `processCsvData`) -/

/-- Digit test for the date parser. -/
def isDigit (c : Char) : Bool := '0' ≤ c && c ≤ '9'

/-- Numeric value of a digit string. -/
def digitsVal (s : JStr) : Nat := s.foldl (fun n c => n * 10 + (c.toNat - 48)) 0

/--
Model of `new Date(timeString).getTime()` for the `Time` column: a timestamp
of the shape `YYYY-MM-DD hh:mm:ss` (a space or `T` between date and time,
anything after the seconds ignored) is mapped to a lexicographic key that
orders exactly as the epoch milliseconds do; anything else is an invalid
date (`NaN`), modelled as `none`.
-/
def parseTimeKey (s : JStr) : Option Int :=
  match s with
  | y1 :: y2 :: y3 :: y4 :: '-' :: m1 :: m2 :: '-' :: d1 :: d2 :: sep :: h1 :: h2 ::
      ':' :: i1 :: i2 :: ':' :: s1 :: s2 :: _ =>
    if (sep = ' ' || sep = 'T') &&
        [y1, y2, y3, y4, m1, m2, d1, d2, h1, h2, i1, i2, s1, s2].all isDigit then
      some ((((((digitsVal [y1, y2, y3, y4] * 13 + digitsVal [m1, m2]) * 32 +
        digitsVal [d1, d2]) * 24 + digitsVal [h1, h2]) * 60 +
        digitsVal [i1, i2]) * 60 + digitsVal [s1, s2] : Nat) : Int)
    else none
  | _ => none

/-- The parsed time key of a row's `Time` field, when present and valid. -/
def rowTimeKey (r : Row) : Option Int :=
  match rowGet r (js "Time") with
  | some t => parseTimeKey t
  | none => none

/--
The comparator `(a, b) => { if (a.Time && b.Time) return new Date(a.Time) -
new Date(b.Time); return 0 }`.  A missing or empty `Time` on either side
yields 0; an unparsable `Time` yields `NaN`, which the sort treats as 0.
-/
def rowCmp (a b : Row) : Int :=
  match rowGet a (js "Time"), rowGet b (js "Time") with
  | some ta, some tb =>
    if !ta.isEmpty && !tb.isEmpty then
      match parseTimeKey ta, parseTimeKey tb with
      | some ka, some kb => ka - kb
      | _, _ => 0
    else 0
  | _, _ => 0

/-- `compare(a, b) <= 0`: the not-after relation induced by the comparator. -/
def rowLe (a b : Row) : Bool := rowCmp a b ≤ 0

/-- Non-decreasing parsed times: whenever both rows have a valid parsed
`Time`, the first is not after the second (rows without one are
unconstrained). -/
def keyLeB (a b : Row) : Bool :=
  match rowTimeKey a, rowTimeKey b with
  | some ka, some kb => ka ≤ kb
  | _, _ => true

/--
The merge-and-sort step of `processCsvData`: concatenate each report's rows
and sort by the `Time` field with the comparator above.
-/
def processRows (rowLists : List (List Row)) : List Row :=
  jsSort rowLe rowLists.flatten

/-! ### Dividend analytics (`analyzeDividends` in `DividendAnalysis`) -/

/--
The scanning phase of `parseFloat(s)`: skip leading whitespace, optional
sign, then the longest prefix `digits [. digits]`; no digits at all is `NaN`
(`none`).  Returns the negativity flag, the integer digits and the fraction
digits.  Exponents do not occur in the analysed data and are not modelled.
-/
def parseFloatParts (s : JStr) : Option (Bool × JStr × JStr) :=
  let s1 := s.dropWhile isWs
  let neg : Bool := match s1 with | '-' :: _ => true | _ => false
  let s2 := match s1 with
    | '-' :: r => r
    | '+' :: r => r
    | _ => s1
  let intPart := s2.takeWhile isDigit
  let rest := s2.dropWhile isDigit
  match rest with
  | '.' :: r2 =>
    let frac := r2.takeWhile isDigit
    if intPart.isEmpty && frac.isEmpty then none else some (neg, intPart, frac)
  | _ =>
    if intPart.isEmpty then none else some (neg, intPart, [])

/-- The numeric value of the scanned parts of a decimal literal. -/
def partsToQ (p : Bool × JStr × JStr) : ℚ :=
  (if p.1 then (-1 : ℚ) else 1) *
    ((digitsVal p.2.1 : ℚ) + (digitsVal p.2.2 : ℚ) / ((10 : ℚ) ^ p.2.2.length))

/-- Model of `parseFloat(s)` as an exact rational. -/
def parseFloatQ (s : JStr) : Option ℚ := (parseFloatParts s).map partsToQ

/-- `parseFloat(transaction.Total) || 0`. -/
def amountOf (r : Row) : ℚ :=
  match rowGet r (js "Total") with
  | some s => (parseFloatQ s).getD 0
  | none => 0

/-- `transaction.Ticker || 'Unknown'`. -/
def tickerOf (r : Row) : JStr :=
  match rowGet r (js "Ticker") with
  | some t => if t.isEmpty then js "Unknown" else t
  | none => js "Unknown"

/--
The dividend filter: a truthy `Action` that contains "dividend"
case-insensitively (the three extra equality disjuncts of the source are
subsumed but kept for fidelity).
-/
def isDividendRow (r : Row) : Bool :=
  match rowGet r (js "Action") with
  | some a =>
    !a.isEmpty &&
      (containsSub (js "dividend") (jsLower a) ||
       jsLower a = js "dividend (dividend)" ||
       jsLower a = js "dividend (dividend manufactured payment)" ||
       jsLower a = js "dividend (tax exempted)")
  | none => false

/--
Dividend type classification: "manufactured payment" beats "tax exempted"
beats the default `Regular Dividend` (the source's final
`includes('dividend')` branch also assigns `Regular Dividend`, as does its
initial value).
-/
def dividendTypeOf (r : Row) : JStr :=
  let action := (rowGet r (js "Action")).getD []
  let al := jsLower action
  if containsSub (js "manufactured payment") al then js "Manufactured Payment"
  else if containsSub (js "tax exempted") al then js "Tax Exempted"
  else js "Regular Dividend"

/-- Per-stock aggregate (`dividendsByStock[ticker]`, the fields the claims
exercise). -/
structure StockAgg where
  total : ℚ
  count : Nat
deriving DecidableEq, Repr

/-- Per-type aggregate (`dividendsByType[type]`): total, count and the
stock `Set`. -/
structure TypeAgg where
  total : ℚ
  count : Nat
  stocks : List JStr
deriving DecidableEq, Repr

/-- The accumulator of `analyzeDividends`'s `forEach` over dividend rows. -/
structure DivState where
  totalDividends : ℚ
  byStock : List (JStr × StockAgg)
  byType : List (JStr × TypeAgg)
deriving DecidableEq, Repr

/-- Bump `dividendsByStock[ticker]`, creating the entry on first sight. -/
def bumpStock (m : List (JStr × StockAgg)) (tk : JStr) (amt : ℚ) :
    List (JStr × StockAgg) :=
  match m with
  | [] => [(tk, ⟨amt, 1⟩)]
  | (k, a) :: rest =>
    if k = tk then (k, ⟨a.total + amt, a.count + 1⟩) :: rest
    else (k, a) :: bumpStock rest tk amt

/-- Bump `dividendsByType[type]`, creating the entry on first sight and
adding the ticker to the stock set. -/
def bumpType (m : List (JStr × TypeAgg)) (ty tk : JStr) (amt : ℚ) :
    List (JStr × TypeAgg) :=
  match m with
  | [] => [(ty, ⟨amt, 1, [tk]⟩)]
  | (k, a) :: rest =>
    if k = ty then
      (k, ⟨a.total + amt, a.count + 1,
           if tk ∈ a.stocks then a.stocks else a.stocks ++ [tk]⟩) :: rest
    else (k, a) :: bumpType rest ty tk amt

/-- The `forEach` body: add the parsed amount to the grand total and to the
per-stock and per-type aggregates. -/
def divStep (s : DivState) (r : Row) : DivState :=
  let amt := amountOf r
  let tk := tickerOf r
  let ty := dividendTypeOf r
  { totalDividends := s.totalDividends + amt
    byStock := bumpStock s.byStock tk amt
    byType := bumpType s.byType ty tk amt }

/-- `analyzeDividends(csvData)` restricted to the aggregates the claims
exercise (grand total, per-stock totals/counts, per-type
totals/counts/unique stocks). -/
def analyzeDividends (csvData : List Row) : DivState :=
  (csvData.filter isDividendRow).foldl divStep ⟨0, [], []⟩

/-- `dividendsByType[type].uniqueStocks` (the stock `Set`'s size). -/
def uniqueStocks (s : DivState) (ty : JStr) : Option Nat :=
  (s.byType.lookup ty).map (fun a => a.stocks.length)

/-! ### Concrete instances used by witnesses and counterexamples -/

/-- `Dividend` of 10 EUR for AAPL. -/
def divRow1 : Row :=
  [(js "Action", js "Dividend"), (js "Ticker", js "AAPL"),
   (js "Total", js "10"), (js "Currency (Total)", js "EUR")]

/-- `Dividend (Tax Exempted)` of 5 EUR for AAPL. -/
def divRow2 : Row :=
  [(js "Action", js "Dividend (Tax Exempted)"), (js "Ticker", js "AAPL"),
   (js "Total", js "5"), (js "Currency (Total)", js "EUR")]

/-- `Dividend (Dividend manufactured payment)` of 3 EUR for MSFT. -/
def divRow3 : Row :=
  [(js "Action", js "Dividend (Dividend manufactured payment)"),
   (js "Ticker", js "MSFT"), (js "Total", js "3"),
   (js "Currency (Total)", js "EUR")]

/-- A timestamp from UTC components and an epoch-millisecond key. -/
def stampOf (y mo d h mi s : Nat) (ms : Int) : Stamp := ⟨ms, ⟨y, mo, d, h, mi, s⟩⟩

/-- A finished full-year 2021 descriptor ending `2021-12-31T22:00:00Z`. -/
def ce1 : ExportItem :=
  ⟨some (js "R1"), some (js "Finished"),
   some (stampOf 2021 0 1 0 0 0 1609459200000),
   some (stampOf 2021 11 31 22 0 0 1640988000000)⟩

/-- A finished full-year 2021 descriptor ending `2021-12-31T23:59:59Z`,
later than `ce1`. -/
def ce2 : ExportItem :=
  ⟨some (js "R2"), some (js "Finished"),
   some (stampOf 2021 0 1 0 0 0 1609459200000),
   some (stampOf 2021 11 31 23 59 59 1640995199000)⟩

/-- A finished current-year (2025) descriptor ending mid-June 2025. -/
def ce3 : ExportItem :=
  ⟨some (js "R3"), some (js "Finished"),
   some (stampOf 2025 0 1 0 0 0 1735689600000),
   some (stampOf 2025 5 15 10 0 0 1749981600000)⟩

/-- `ce1` as a `HistoryDownload` descriptor. -/
def cd1 : DlItem :=
  ⟨js "R1", some (stampOf 2021 0 1 0 0 0 1609459200000),
   some (stampOf 2021 11 31 22 0 0 1640988000000), none, js "Finished", none⟩

/-- `ce2` as a `HistoryDownload` descriptor. -/
def cd2 : DlItem :=
  ⟨js "R2", some (stampOf 2021 0 1 0 0 0 1609459200000),
   some (stampOf 2021 11 31 23 59 59 1640995199000), none, js "Finished", none⟩

/-- Oracle: every attempt for 2020 is rejected with HTTP 429; every other
year succeeds immediately. -/
def o429 : Nat → Nat → AttemptOut := fun year _ =>
  if year = 2020 then .err (some 429) (js "Too Many Requests")
  else .ok (js "RID2021")

/-- Oracle: 2020 fails with a plain HTTP 500 transport error; every other
year succeeds immediately. -/
def oMixed : Nat → Nat → AttemptOut := fun year _ =>
  if year = 2020 then .err (some 500) (js "Internal Server Error")
  else .ok (js "RID2021")

/-- A single-year oracle answering HTTP 429 on every attempt. -/
def oAll429 : Nat → AttemptOut := fun _ => .err (some 429) (js "Too Many Requests")

/-- A row with parsed time key for `2021-01-03 00:00:00`. -/
def rowT3 : Row := [(js "Time", js "2021-01-03 00:00:00")]

/-- A row with no `Time` field. -/
def rowNoTime : Row := [(js "Action", js "Deposit")]

/-- A row with parsed time key for `2021-01-01 00:00:00`. -/
def rowT1 : Row := [(js "Time", js "2021-01-01 00:00:00")]

/-! ## Theorems -/

/--
C8: on the three rows `Dividend` €10 EUR for AAPL, `Dividend (Tax Exempted)`
€5 EUR for AAPL and `Dividend (Dividend manufactured payment)` €3 EUR for
MSFT, `analyzeDividends` reports `totalDividends = 18`,
`dividendsByStock['AAPL'].total = 15`,
`dividendsByType['Tax Exempted'].count = 1` and
`dividendsByType['Manufactured Payment'].uniqueStocks = 1`.
-/
theorem dividend_aggregation_example :
    (analyzeDividends [divRow1, divRow2, divRow3]).totalDividends = 18 ∧
    ((analyzeDividends [divRow1, divRow2, divRow3]).byStock.lookup
        (js "AAPL")).map StockAgg.total = some 15 ∧
    ((analyzeDividends [divRow1, divRow2, divRow3]).byType.lookup
        (js "Tax Exempted")).map TypeAgg.count = some 1 ∧
    uniqueStocks (analyzeDividends [divRow1, divRow2, divRow3])
        (js "Manufactured Payment") = some 1 := by
  have hf : (List.filter isDividendRow [divRow1, divRow2, divRow3]) =
      [divRow1, divRow2, divRow3] := by decide
  have hg1 : rowGet divRow1 (js "Total") = some (js "10") := by decide
  have hg2 : rowGet divRow2 (js "Total") = some (js "5") := by decide
  have hg3 : rowGet divRow3 (js "Total") = some (js "3") := by decide
  have hp1 : parseFloatParts (js "10") = some (false, js "10", []) := by decide
  have hp2 : parseFloatParts (js "5") = some (false, js "5", []) := by decide
  have hp3 : parseFloatParts (js "3") = some (false, js "3", []) := by decide
  have hd1 : digitsVal (js "10") = 10 := by decide
  have hd2 : digitsVal (js "5") = 5 := by decide
  have hd3 : digitsVal (js "3") = 3 := by decide
  have hd0 : digitsVal ([] : JStr) = 0 := by decide
  have ha1 : amountOf divRow1 = 10 := by
    simp [amountOf, hg1, parseFloatQ, hp1, partsToQ, hd1, hd0]
  have ha2 : amountOf divRow2 = 5 := by
    simp [amountOf, hg2, parseFloatQ, hp2, partsToQ, hd2, hd0]
  have ha3 : amountOf divRow3 = 3 := by
    simp [amountOf, hg3, parseFloatQ, hp3, partsToQ, hd3, hd0]
  have ht1 : tickerOf divRow1 = js "AAPL" := by decide
  have ht2 : tickerOf divRow2 = js "AAPL" := by decide
  have ht3 : tickerOf divRow3 = js "MSFT" := by decide
  have hy1 : dividendTypeOf divRow1 = js "Regular Dividend" := by decide
  have hy2 : dividendTypeOf divRow2 = js "Tax Exempted" := by decide
  have hy3 : dividendTypeOf divRow3 = js "Manufactured Payment" := by decide
  have hne1 : js "AAPL" ≠ js "MSFT" := by decide
  have hne2 : js "Regular Dividend" ≠ js "Tax Exempted" := by decide
  have hne3 : js "Regular Dividend" ≠ js "Manufactured Payment" := by decide
  have hne4 : js "Tax Exempted" ≠ js "Manufactured Payment" := by decide
  simp only [analyzeDividends, hf, List.foldl_cons, List.foldl_nil, divStep,
    ha1, ha2, ha3, ht1, ht2, ht3, hy1, hy2, hy3]
  have hb1 : (js "Tax Exempted" == js "Regular Dividend") = false := by decide
  have hb2 : (js "Manufactured Payment" == js "Regular Dividend") = false := by decide
  have hb3 : (js "Manufactured Payment" == js "Tax Exempted") = false := by decide
  norm_num [bumpStock, bumpType, uniqueStocks, List.lookup, hne1, hne2, hne3, hne4,
    hb1, hb2, hb3]


/--
C3 (failing input): with `yearsToExport = [2020, 2021]` where every attempt
for 2020 answers HTTP 429 — so 2020's rate-limit retries are exhausted, as
the wrapped statusless error and the two retry waits show — the base
inter-request delay is still 20000 ms for the rest of the run (the waits are
the two retry backoffs and the unchanged 20000 ms post-error wait), not the
40000 ms the doubling policy prescribes: the doubling branch tests
`yearError.response?.status === 429`, but the error rethrown after exhausted
retries carries no `response`, so the branch is unreachable.
-/
theorem base_delay_never_doubles :
    (exportHistoryByYear (o429 2020) 2020 0).1 =
      Except.error ⟨none, rateLimitMsg⟩ ∧
    (exportHistoryByYear (o429 2020) 2020 0).2 = [20000, 40000] ∧
    (runExport o429 [2020, 2021]).baseDelay = 20000 ∧
    (runExport o429 [2020, 2021]).waits = [20000, 40000, 20000] := by
  decide

/--
C1 (counterexample): `loadExistingExports` retains the FIRST full-year
descriptor listed for 2021 (`ce1`, ending 22:00 on Dec 31), not the one with
the later `timeTo` (`ce2`, ending 23:59:59), although both are finished
full-year descriptors for 2021 with different `timeTo` values.
-/
theorem first_descriptor_retained_counterexample :
    (fullYearExportsMap 2025 0 [ce1, ce2]).lookup 2021 = some ce1 ∧
    ce1 ≠ ce2 ∧
    isFinished ce2 = true ∧
    (getYearFromTimeRange 2025 0 ce2.timeFrom ce2.timeTo).map YearResult.year =
      some 2021 ∧
    Option.map Stamp.ms ce1.timeTo = some 1640988000000 ∧
    Option.map Stamp.ms ce2.timeTo = some 1640995199000 := by
  decide

/--
C5 (counterexample): sorting the three rows — time `2021-01-03`, no time,
time `2021-01-01` — leaves them unchanged, because the row without a `Time`
compares equal to both neighbours; the result places the row with the later
parsed time before the row with the earlier one, so the output is NOT
non-decreasing in parsed time.
-/
theorem sort_not_monotone_counterexample :
    processRows [[rowT3, rowNoTime, rowT1]] = [rowT3, rowNoTime, rowT1] ∧
    ¬ (processRows [[rowT3, rowNoTime, rowT1]]).Pairwise
        (fun a b => keyLeB a b = true) := by
  decide

/--
C9 (counterexample): a record whose value has a leading space does not
survive the round trip — the parser trims every field, so serializing the
single record `{x: " a"}` and parsing it back yields `{x: "a"}`, not the
original mapping.
-/
theorem round_trip_counterexample :
    (parseCsv (serializeCsv [js "x"] [[js " a"]])).1 = [[(js "x", js "a")]] ∧
    [[(js "x", js "a")]] ≠ [[(js "x", js " a")]] := by
  decide

/-! ### C7: per-year retry with bounded exponential backoff -/

/--
C7: a year's export request is retried at most twice more after a 429, with
backoff delays `min(20000 * 2 ** k, 60000)` (20 s, then 40 s) before the
retries, and when the final retry also answers 429 the failure propagates
(as the wrapped statusless error).
-/
theorem rate_limit_retry_backoff (o : Nat → AttemptOut) (year : Nat)
    (h : ∀ k, k ≤ 2 → ∃ m, o k = AttemptOut.err (some 429) m) :
    (∀ p : Nat → AttemptOut, ∃ tail,
      (exportHistoryByYear p year 0).2 ++ tail =
        [min (20000 * 2 ^ 0) 60000, min (20000 * 2 ^ 1) 60000]) ∧
    (exportHistoryByYear o year 0).2 = [20000, 40000] ∧
    (exportHistoryByYear o year 0).1 = Except.error ⟨none, rateLimitMsg⟩ := by
  have e0 : min (20000 * 2 ^ 0) 60000 = 20000 := by norm_num
  have e1 : min (20000 * 2 ^ 1) 60000 = 40000 := by norm_num
  refine ⟨?_, ?_⟩
  · intro p
    rw [e0, e1]
    rcases hp0 : p 0 with rid0 | ⟨st0, m0⟩
    · exact ⟨[20000, 40000], by simp [exportHistoryByYear, exportAttempts, hp0]⟩
    · by_cases h0 : st0 = some 429
      · rcases hp1 : p 1 with rid1 | ⟨st1, m1⟩
        · exact ⟨[40000], by
            norm_num [exportHistoryByYear, exportAttempts, hp0, hp1, h0]⟩
        · by_cases h1 : st1 = some 429
          · rcases hp2 : p 2 with rid2 | ⟨st2, m2⟩
            · exact ⟨[], by
                norm_num [exportHistoryByYear, exportAttempts, hp0, hp1, hp2, h0, h1]⟩
            · exact ⟨[], by
                by_cases h2 : st2 = some 429 <;>
                  norm_num [exportHistoryByYear, exportAttempts, hp0, hp1, hp2, h0, h1, h2]⟩
          · exact ⟨[40000], by
              norm_num [exportHistoryByYear, exportAttempts, hp0, hp1, h0, h1]⟩
      · exact ⟨[20000, 40000], by simp [exportHistoryByYear, exportAttempts, hp0, h0]⟩
  · obtain ⟨m0, h0⟩ := h 0 (by omega)
    obtain ⟨m1, h1⟩ := h 1 (by omega)
    obtain ⟨m2, h2⟩ := h 2 (by omega)
    constructor <;> simp [exportHistoryByYear, exportAttempts, h0, h1, h2]

/-- Witness for C7 at a concrete all-429 oracle. -/
theorem rate_limit_retry_backoff_witness :
    (∀ p : Nat → AttemptOut, ∃ tail,
      (exportHistoryByYear p 2020 0).2 ++ tail =
        [min (20000 * 2 ^ 0) 60000, min (20000 * 2 ^ 1) 60000]) ∧
    (exportHistoryByYear oAll429 2020 0).2 = [20000, 40000] ∧
    (exportHistoryByYear oAll429 2020 0).1 = Except.error ⟨none, rateLimitMsg⟩ :=
  rate_limit_retry_backoff oAll429 2020
    (fun _ _ => ⟨js "Too Many Requests", rfl⟩)

/-! ### C6: per-year failures are recorded and the batch continues -/

theorem stepYear_reports_eq (o : Nat → Nat → AttemptOut) (b : Bool)
    (s : RunState) (y : Nat) :
    (stepYear o b s y).reports = s.reports ++ [reportFor o y] := by
  unfold stepYear reportFor
  cases hres : (exportHistoryByYear (o y) y 0).1 with
  | ok rep => simp [hres]
  | error e => by_cases h429 : e.status = some 429 <;> simp [hres, h429]

theorem stepYear_ids_eq (o : Nat → Nat → AttemptOut) (b : Bool)
    (s : RunState) (y : Nat) :
    (stepYear o b s y).successfulReportIds =
      s.successfulReportIds ++ ridsFor o y := by
  unfold stepYear ridsFor
  cases hres : (exportHistoryByYear (o y) y 0).1 with
  | ok rep =>
    cases rep with
    | exported y2 rid => by_cases hr : rid.isEmpty <;> simp [hres, hr]
    | failed y2 m => simp [hres]
  | error e => by_cases h429 : e.status = some 429 <;> simp [hres, h429]

theorem runAux_reports_eq (o : Nat → Nat → AttemptOut) :
    ∀ (ys : List Nat) (s : RunState),
      (runAux o ys s).reports = s.reports ++ ys.map (reportFor o)
  | [], s => by simp [runAux]
  | [y], s => by simp [runAux, stepYear_reports_eq]
  | y :: z :: rest, s => by
    show (runAux o (z :: rest) (stepYear o false s y)).reports = _
    rw [runAux_reports_eq o (z :: rest) (stepYear o false s y)]
    simp [stepYear_reports_eq]

theorem runAux_ids_eq (o : Nat → Nat → AttemptOut) :
    ∀ (ys : List Nat) (s : RunState),
      (runAux o ys s).successfulReportIds =
        s.successfulReportIds ++ (ys.map (ridsFor o)).flatten
  | [], s => by simp [runAux]
  | [y], s => by simp [runAux, stepYear_ids_eq]
  | y :: z :: rest, s => by
    show (runAux o (z :: rest) (stepYear o false s y)).successfulReportIds = _
    rw [runAux_ids_eq o (z :: rest) (stepYear o false s y)]
    simp [stepYear_ids_eq]

/--
C6: a year whose export fails with a non-429, non-auth error contributes a
failure record `{year, error, status: 'failed'}` to the result set, the loop
continues (`runExport` is a total function of the outcomes — no exception
escapes the batch), and a later successful year's reportId still appears in
`successfulReportIds`.
-/
theorem year_failure_recorded_batch_continues (o : Nat → Nat → AttemptOut) (years : List Nat)
    (y1 y2 : Nat) (st : Option Nat) (msg rid : JStr)
    (h1m : y1 ∈ years) (h2m : y2 ∈ years)
    (h1 : (exportHistoryByYear (o y1) y1 0).1 = Except.error ⟨st, msg⟩)
    (hst : st ≠ some 429 ∧ st ≠ some 401 ∧ st ≠ some 403)
    (h2 : (exportHistoryByYear (o y2) y2 0).1 = Except.ok (.exported y2 rid))
    (hrid : rid ≠ []) :
    Report.failed y1 msg ∈ (runExport o years).reports ∧
    rid ∈ (runExport o years).successfulReportIds := by
  constructor
  · rw [runExport, runAux_reports_eq]
    have hrep : reportFor o y1 = .failed y1 msg := by rw [reportFor, h1]
    exact List.mem_append_right _ (List.mem_map.mpr ⟨y1, h1m, hrep⟩)
  · rw [runExport, runAux_ids_eq]
    have hids : ridsFor o y2 = [rid] := by
      rw [ridsFor, h2]
      simp [List.isEmpty_eq_true, hrid]
    refine List.mem_append_right _ (List.mem_flatten.mpr ⟨[rid], ?_, List.mem_singleton.mpr rfl⟩)
    exact List.mem_map.mpr ⟨y2, h2m, hids⟩

/-- Witness for C6: 2020 fails with HTTP 500, 2021 succeeds with
`RID2021`. -/
theorem year_failure_recorded_batch_continues_witness :
    Report.failed 2020 (js "Internal Server Error") ∈
      (runExport oMixed [2020, 2021]).reports ∧
    js "RID2021" ∈ (runExport oMixed [2020, 2021]).successfulReportIds :=
  year_failure_recorded_batch_continues oMixed [2020, 2021] 2020 2021 (some 500)
    (js "Internal Server Error") (js "RID2021")
    (by decide) (by decide) (by decide) (by decide) (by decide) (by decide)

/-! ### C4: header/row arity tolerance of the CSV parser -/

theorem splitNl_append_cons (a : JStr) (s : JStr) (x : JStr) (xs : List JStr)
    (ha : '\n' ∉ a) (hs : splitNl s = x :: xs) :
    splitNl (a ++ s) = (a ++ x) :: xs := by
  induction a with
  | nil => simpa using hs
  | cons c a ih =>
    have hc : ¬ (c = '\n') := fun h => ha (h ▸ List.mem_cons_self c a)
    have ih2 := ih (fun hmem => ha (List.mem_cons_of_mem c hmem))
    simp [splitNl, ih2, hc]

theorem splitNl_of_not_mem (l : JStr) (h : '\n' ∉ l) : splitNl l = [l] := by
  have h0 : splitNl ([] : JStr) = [] :: ([] : List JStr) := by simp [splitNl]
  simpa using splitNl_append_cons l [] [] [] h h0

theorem splitNl_pair (h l : JStr) (hh : '\n' ∉ h) (hl : '\n' ∉ l) :
    splitNl (h ++ '\n' :: l) = [h, l] := by
  have h2 : splitNl ('\n' :: l) = [] :: splitNl l := by simp [splitNl]
  rw [splitNl_of_not_mem l hl] at h2
  simpa using splitNl_append_cons h ('\n' :: l) [] [l] hh h2

theorem buildRow_getElem_of_ge (hs : List JStr) :
    ∀ (vs : List JStr) (i : Nat), vs.length ≤ i →
      (buildRow hs vs)[i]? = hs[i]?.map (fun hd => (hd, ([] : JStr))) := by
  induction hs with
  | nil => intro vs i _; simp [buildRow]
  | cons hh hs ih =>
    intro vs i hlen
    cases vs with
    | nil =>
      cases i with
      | zero => simp [buildRow]
      | succ j => simpa [buildRow] using ih [] j (by simp)
    | cons v vs =>
      cases i with
      | zero => simp at hlen
      | succ j => simpa [buildRow] using ih vs j (by simpa using hlen)

/--
C4: for a header row of `n` fields and one data row of `m` fields, the data
row is accepted exactly when `|m - n| <= 2` — in which case the row binds
each header, with headers beyond the data row's fields bound to the empty
string — and otherwise the row is skipped and the skipped-row count becomes
1.
-/
theorem header_row_arity_tolerance (hline lline : JStr)
    (hh : jsTrim hline ≠ []) (hl : jsTrim lline ≠ [])
    (hnh : '\n' ∉ hline) (hnl : '\n' ∉ lline) :
    (parseCsv (hline ++ '\n' :: lline) =
      if Nat.dist (parseCSVLine (jsTrim lline)).length (parseCSVLine hline).length ≤ 2
      then ([buildRow (parseCSVLine hline) (parseCSVLine (jsTrim lline))], 0)
      else ([], 1)) ∧
    (∀ i, (parseCSVLine (jsTrim lline)).length ≤ i →
      (buildRow (parseCSVLine hline) (parseCSVLine (jsTrim lline)))[i]? =
        ((parseCSVLine hline)[i]?).map (fun hd => (hd, ([] : JStr)))) := by
  constructor
  · have hsplit := splitNl_pair hline lline hnh hnl
    have hhe : (jsTrim hline).isEmpty = false := by
      cases hht : jsTrim hline with
      | nil => exact absurd hht hh
      | cons c cs => rfl
    have hle : (jsTrim lline).isEmpty = false := by
      cases hlt : jsTrim lline with
      | nil => exact absurd hlt hl
      | cons c cs => rfl
    rw [parseCsv, hsplit]
    simp only [List.filter, hhe, hle, Bool.not_false]
    by_cases hd : Nat.dist (parseCSVLine (jsTrim lline)).length
        (parseCSVLine hline).length ≤ 2
    · simp [parseCsvLines, hl, hd]
    · simp [parseCsvLines, hl, hd]
  · intro i hi
    exact buildRow_getElem_of_ge (parseCSVLine hline) (parseCSVLine (jsTrim lline)) i hi

/-- Witness for C4: header `a,b,c` with data row `1,2,3,4,5,6`
(six fields against three headers) is skipped and counted. -/
theorem header_row_arity_tolerance_witness :
    (parseCsv (js "a,b,c" ++ '\n' :: js "1,2,3,4,5,6") =
      if Nat.dist (parseCSVLine (jsTrim (js "1,2,3,4,5,6"))).length
          (parseCSVLine (js "a,b,c")).length ≤ 2
      then ([buildRow (parseCSVLine (js "a,b,c"))
              (parseCSVLine (jsTrim (js "1,2,3,4,5,6")))], 0)
      else ([], 1)) ∧
    (∀ i, (parseCSVLine (jsTrim (js "1,2,3,4,5,6"))).length ≤ i →
      (buildRow (parseCSVLine (js "a,b,c"))
          (parseCSVLine (jsTrim (js "1,2,3,4,5,6"))))[i]? =
        ((parseCSVLine (js "a,b,c"))[i]?).map (fun hd => (hd, ([] : JStr)))) :=
  header_row_arity_tolerance (js "a,b,c") (js "1,2,3,4,5,6")
    (by decide) (by decide) (by decide) (by decide)

/-! ### C2: the current year is never covered; covered past years are not
re-requested -/

theorem setAdd_mem (l : List Nat) (z y : Nat) :
    y ∈ setAdd l z ↔ y ∈ l ∨ y = z := by
  by_cases h : z ∈ l
  · simp only [setAdd, if_pos h]
    constructor
    · exact Or.inl
    · rintro (hy | rfl)
      · exact hy
      · exact h
  · simp [setAdd, if_neg h]

theorem coveredStep_fst_mono (cy : Nat) (t : Int)
    (s : List Nat × List (Nat × Option JStr)) (e : ExportItem) (y : Nat)
    (h : y ∈ s.1) : y ∈ (coveredStep cy t s e).1 := by
  unfold coveredStep
  cases hyr : getYearFromTimeRange cy t e.timeFrom e.timeTo with
  | none => exact h
  | some yr =>
    by_cases ho : yr.isOutdated
    · simp [ho, h]
    · by_cases hc : yr.year = cy
      · simp [ho, hc, h]
      · simp only [ho, Bool.not_false, if_true, hc, ne_eq, not_false_iff]
        exact (setAdd_mem _ _ _).mpr (Or.inl h)

theorem coveredFold_fst_mono (cy : Nat) (t : Int) (l : List ExportItem) :
    ∀ (s : List Nat × List (Nat × Option JStr)) (y : Nat), y ∈ s.1 →
      y ∈ (l.foldl (coveredStep cy t) s).1 := by
  induction l with
  | nil => intro s y h; simpa using h
  | cons e rest ih =>
    intro s y h
    exact ih _ y (coveredStep_fst_mono cy t s e y h)

theorem coveredStep_fst_not_current (cy : Nat) (t : Int)
    (s : List Nat × List (Nat × Option JStr)) (e : ExportItem)
    (h : cy ∉ s.1) : cy ∉ (coveredStep cy t s e).1 := by
  unfold coveredStep
  cases hyr : getYearFromTimeRange cy t e.timeFrom e.timeTo with
  | none => exact h
  | some yr =>
    by_cases ho : yr.isOutdated
    · simp [ho, h]
    · by_cases hc : yr.year = cy
      · simp [ho, hc, h]
      · simp only [ho, Bool.not_false, if_true, hc, ne_eq, not_false_iff]
        intro hmem
        rcases (setAdd_mem _ _ _).mp hmem with hin | heq
        · exact h hin
        · exact hc heq.symm

theorem coveredFold_fst_not_current (cy : Nat) (t : Int) (l : List ExportItem) :
    ∀ (s : List Nat × List (Nat × Option JStr)), cy ∉ s.1 →
      cy ∉ (l.foldl (coveredStep cy t) s).1 := by
  induction l with
  | nil => intro s h; simpa using h
  | cons e rest ih =>
    intro s h
    exact ih _ (coveredStep_fst_not_current cy t s e h)

theorem coveredFold_fst_mem (cy : Nat) (t : Int) (l : List ExportItem) :
    ∀ (s : List Nat × List (Nat × Option JStr)) (e : ExportItem)
      (yr : YearResult), e ∈ l →
      getYearFromTimeRange cy t e.timeFrom e.timeTo = some yr →
      yr.isOutdated = false → yr.year ≠ cy →
      yr.year ∈ (l.foldl (coveredStep cy t) s).1 := by
  induction l with
  | nil => intro s e yr he; exact absurd he (List.not_mem_nil e)
  | cons d rest ih =>
    intro s e yr he hy ho hne
    rcases List.mem_cons.mp he with rfl | hmem
    · have hstep : yr.year ∈ (coveredStep cy t s e).1 := by
        unfold coveredStep
        rw [hy]
        simp only [ho, Bool.not_false, if_true, hne, ne_eq, not_false_iff]
        exact (setAdd_mem _ _ _).mpr (Or.inr rfl)
      exact coveredFold_fst_mono cy t rest _ _ hstep
    · exact ih _ e yr hmem hy ho hne

theorem insertBy_perm {α : Type} (le : α → α → Bool) (a : α) (l : List α) :
    List.Perm (insertBy le a l) (a :: l) := by
  induction l with
  | nil => simp [insertBy]
  | cons b l ih =>
    by_cases h : le a b
    · simp [insertBy, h]
    · simp only [insertBy, h, if_false, Bool.false_eq_true]
      exact (ih.cons b).trans (List.Perm.swap a b l)

theorem jsSort_perm {α : Type} (le : α → α → Bool) (l : List α) :
    List.Perm (jsSort le l) l := by
  induction l with
  | nil => simp [jsSort]
  | cons a l ih =>
    exact (insertBy_perm le a (jsSort le l)).trans (ih.cons a)

theorem getYear_past_not_outdated (cy : Nat) (t : Int)
    (timeFrom timeTo : Option Stamp) (yr : YearResult)
    (hy : getYearFromTimeRange cy t timeFrom timeTo = some yr)
    (hne : yr.year ≠ cy) : yr.isOutdated = false := by
  cases timeFrom with
  | none => exact absurd hy (by simp [getYearFromTimeRange])
  | some f =>
    cases timeTo with
    | none => exact absurd hy (by simp [getYearFromTimeRange])
    | some t2 =>
      simp only [getYearFromTimeRange] at hy
      split at hy
      · injection hy with hy2
        subst hy2
        simp only at hne ⊢
        have hfy : (f.dt.year = cy) = False := by
          simpa using hne
        simp [hfy]
      · exact absurd hy (by simp)

theorem requestedYears_mem (sy cy y : Nat) :
    y ∈ requestedYears sy cy ↔ sy ≤ y ∧ y ≤ cy := by
  simp only [requestedYears, List.mem_map, List.mem_range]
  constructor
  · rintro ⟨i, hi, rfl⟩
    omega
  · rintro ⟨h1, h2⟩
    exact ⟨y - sy, by omega, by omega⟩

/--
C2: the current calendar year is never in the covered-years set, so it is
always among the years to export whenever it is in the requested range; a
past year with a finished full-year descriptor is covered and receives no
export request.
-/
theorem current_year_always_reexported (startYear cy : Nat) (todayMs : Int)
    (exports : List ExportItem) (e : ExportItem) (yr : YearResult)
    (hsc : startYear ≤ cy)
    (he : e ∈ exports) (hf : isFinished e = true)
    (hy : getYearFromTimeRange cy todayMs e.timeFrom e.timeTo = some yr)
    (hne : yr.year ≠ cy) :
    cy ∉ coveredYearsSorted cy todayMs exports ∧
    cy ∈ yearsToExport startYear cy todayMs exports ∧
    yr.year ∉ yearsToExport startYear cy todayMs exports := by
  have hnotc : cy ∉ (getExistingYearsCovered cy todayMs exports).1 := by
    unfold getExistingYearsCovered
    exact coveredFold_fst_not_current cy todayMs _ _ (by simp)
  have hnsorted : cy ∉ coveredYearsSorted cy todayMs exports := fun hmem =>
    hnotc ((jsSort_perm _ _).mem_iff.mp hmem)
  refine ⟨hnsorted, ?_, ?_⟩
  · unfold yearsToExport
    rw [List.mem_filter]
    exact ⟨(requestedYears_mem startYear cy cy).mpr ⟨hsc, le_refl cy⟩,
      by simpa using hnsorted⟩
  · have hmemc : yr.year ∈ (getExistingYearsCovered cy todayMs exports).1 := by
      unfold getExistingYearsCovered
      exact coveredFold_fst_mem cy todayMs _ _ e yr
        (List.mem_filter.mpr ⟨he, hf⟩) hy
        (getYear_past_not_outdated cy todayMs e.timeFrom e.timeTo yr hy hne) hne
    have hsorted : yr.year ∈ coveredYearsSorted cy todayMs exports :=
      (jsSort_perm _ _).mem_iff.mpr hmemc
    intro hmem
    have := (List.mem_filter.mp hmem).2
    simp at this
    exact this hsorted

/-- Witness for C2: descriptors for 2021 (`ce1`) and the current year 2025
(`ce3`), requested range 2020–2025. -/
theorem current_year_always_reexported_witness :
    (2020 ≤ 2025 ∧ ce1 ∈ [ce1, ce3] ∧ isFinished ce1 = true ∧
      getYearFromTimeRange 2025 1760000000000 ce1.timeFrom ce1.timeTo =
        some ⟨2021, false⟩ ∧ (2021 : Nat) ≠ 2025) ∧
    (2025 ∉ coveredYearsSorted 2025 1760000000000 [ce1, ce3] ∧
      2025 ∈ yearsToExport 2020 2025 1760000000000 [ce1, ce3] ∧
      (2021 : Nat) ∉ yearsToExport 2020 2025 1760000000000 [ce1, ce3]) :=
  ⟨⟨by omega, by decide, by decide, by decide, by decide⟩,
    current_year_always_reexported 2020 2025 1760000000000 [ce1, ce3] ce1
      ⟨2021, false⟩ (by omega) (by decide) (by decide) (by decide) (by decide)⟩

/-! ### C5 (amended): the merged sort is a permutation, non-decreasing when
every row's time parses -/

theorem pairwise_insertBy {α : Type} (le : α → α → Bool) (P : α → Prop)
    (hTot : ∀ a b, P a → P b → le a b = true ∨ le b a = true)
    (hTrans : ∀ a b c, P a → P b → P c →
      le a b = true → le b c = true → le a c = true)
    (a : α) (l : List α) (hPa : P a) (hPl : ∀ x ∈ l, P x)
    (hs : l.Pairwise (fun x y => le x y = true)) :
    (insertBy le a l).Pairwise (fun x y => le x y = true) := by
  induction l with
  | nil => simp [insertBy]
  | cons b l ih =>
    have hPb : P b := hPl b (List.mem_cons_self b l)
    have hPl2 : ∀ x ∈ l, P x := fun x hx => hPl x (List.mem_cons_of_mem b hx)
    rcases List.pairwise_cons.mp hs with ⟨hb, hl⟩
    by_cases h : le a b = true
    · rw [insertBy, if_pos h]
      refine List.Pairwise.cons ?_ hs
      intro x hx
      rcases List.mem_cons.mp hx with rfl | hx2
      · exact h
      · exact hTrans a b x hPa hPb (hPl2 x hx2) h (hb x hx2)
    · rw [insertBy, if_neg h]
      have hba : le b a = true := (hTot a b hPa hPb).resolve_left h
      refine List.Pairwise.cons ?_ (ih hPl2 hl)
      intro x hx
      rcases List.mem_cons.mp ((insertBy_perm le a l).mem_iff.mp hx) with rfl | hx2
      · exact hba
      · exact hb x hx2

theorem pairwise_jsSort {α : Type} (le : α → α → Bool) (P : α → Prop)
    (hTot : ∀ a b, P a → P b → le a b = true ∨ le b a = true)
    (hTrans : ∀ a b c, P a → P b → P c →
      le a b = true → le b c = true → le a c = true)
    (l : List α) (hP : ∀ x ∈ l, P x) :
    (jsSort le l).Pairwise (fun x y => le x y = true) := by
  induction l with
  | nil => simp [jsSort]
  | cons a l ih =>
    have hPl : ∀ x ∈ l, P x := fun x hx => hP x (List.mem_cons_of_mem a hx)
    refine pairwise_insertBy le P hTot hTrans a (jsSort le l)
      (hP a (List.mem_cons_self a l)) ?_ (ih hPl)
    intro x hx
    exact hPl x ((jsSort_perm le l).mem_iff.mp hx)

theorem rowTimeKey_parts (a : Row) (ka : Int) (h : rowTimeKey a = some ka) :
    ∃ ta, rowGet a (js "Time") = some ta ∧ parseTimeKey ta = some ka ∧
      ta.isEmpty = false := by
  unfold rowTimeKey at h
  cases hg : rowGet a (js "Time") with
  | none => rw [hg] at h; exact absurd h (by simp)
  | some ta =>
    rw [hg] at h
    refine ⟨ta, rfl, h, ?_⟩
    cases ta with
    | nil => exact absurd h (by simp [parseTimeKey])
    | cons c cs => rfl

theorem rowLe_of_timed (a b : Row) (ka kb : Int)
    (ha : rowTimeKey a = some ka) (hb : rowTimeKey b = some kb) :
    rowLe a b = true ↔ ka ≤ kb := by
  obtain ⟨ta, hga, hpa, hea⟩ := rowTimeKey_parts a ka ha
  obtain ⟨tb, hgb, hpb, heb⟩ := rowTimeKey_parts b kb hb
  unfold rowLe rowCmp
  rw [hga, hgb]
  simp only [hea, heb, hpa, hpb, Bool.not_false, Bool.and_self, if_true]
  constructor
  · intro hh
    have := of_decide_eq_true hh
    omega
  · intro hh
    exact decide_eq_true (by omega)

/--
C5 (amended): `processCsvData`'s merge-and-sort returns a permutation of the
concatenated rows; rows with a missing or unparsable `Time` compare equal to
EVERY row, so the output is guaranteed non-decreasing in parsed time when
every row's `Time` parses.
-/
theorem merged_rows_sorted_when_all_timed (rowLists : List (List Row))
    (h : ∀ r ∈ rowLists.flatten, (rowTimeKey r).isSome = true) :
    List.Perm (processRows rowLists) rowLists.flatten ∧
    (processRows rowLists).Pairwise (fun a b => keyLeB a b = true) := by
  refine ⟨jsSort_perm _ _, ?_⟩
  have hp := pairwise_jsSort rowLe (fun r => (rowTimeKey r).isSome = true)
    ?_ ?_ rowLists.flatten h
  · refine hp.imp_of_mem ?_
    intro a b hma hmb hle
    have hta : (rowTimeKey a).isSome = true :=
      h a ((jsSort_perm rowLe rowLists.flatten).mem_iff.mp hma)
    have htb : (rowTimeKey b).isSome = true :=
      h b ((jsSort_perm rowLe rowLists.flatten).mem_iff.mp hmb)
    obtain ⟨ka, hka⟩ := Option.isSome_iff_exists.mp hta
    obtain ⟨kb, hkb⟩ := Option.isSome_iff_exists.mp htb
    have := (rowLe_of_timed a b ka kb hka hkb).mp hle
    unfold keyLeB
    rw [hka, hkb]
    simpa using this
  · intro a b hta htb
    obtain ⟨ka, hka⟩ := Option.isSome_iff_exists.mp hta
    obtain ⟨kb, hkb⟩ := Option.isSome_iff_exists.mp htb
    rcases le_total ka kb with hle | hle
    · exact Or.inl ((rowLe_of_timed a b ka kb hka hkb).mpr hle)
    · exact Or.inr ((rowLe_of_timed b a kb ka hkb hka).mpr hle)
  · intro a b c hta htb htc hab hbc
    obtain ⟨ka, hka⟩ := Option.isSome_iff_exists.mp hta
    obtain ⟨kb, hkb⟩ := Option.isSome_iff_exists.mp htb
    obtain ⟨kc, hkc⟩ := Option.isSome_iff_exists.mp htc
    have h1 := (rowLe_of_timed a b ka kb hka hkb).mp hab
    have h2 := (rowLe_of_timed b c kb kc hkb hkc).mp hbc
    exact (rowLe_of_timed a c ka kc hka hkc).mpr (le_trans h1 h2)

/-- Witness for C5 (amended): two timed rows, out of order, get sorted. -/
theorem merged_rows_sorted_witness :
    (∀ r ∈ ([[rowT3], [rowT1]] : List (List Row)).flatten,
      (rowTimeKey r).isSome = true) ∧
    (List.Perm (processRows [[rowT3], [rowT1]]) [rowT3, rowT1] ∧
      (processRows [[rowT3], [rowT1]]).Pairwise
        (fun a b => keyLeB a b = true)) :=
  ⟨by decide, merged_rows_sorted_when_all_timed [[rowT3], [rowT1]] (by decide)⟩

/-! ### C1 (amended): the `HistoryDownload` merge retains the descriptor
with the latest end date -/

theorem lookup_cons_self {β : Type} (k : Nat) (v : β) (m : List (Nat × β)) :
    List.lookup k ((k, v) :: m) = some v := by
  simp [List.lookup]

theorem lookup_cons_ne {β : Type} (k y : Nat) (v : β) (m : List (Nat × β))
    (h : y ≠ k) : List.lookup y ((k, v) :: m) = List.lookup y m := by
  have hb : (y == k) = false := beq_eq_false_iff_ne.mpr h
  simp [List.lookup, hb]

theorem lookup_append_of_some {β : Type} (m n : List (Nat × β)) (y : Nat)
    (r : β) (h : List.lookup y m = some r) :
    List.lookup y (m ++ n) = some r := by
  induction m with
  | nil => simp [List.lookup] at h
  | cons p m ih =>
    rcases p with ⟨k, v⟩
    by_cases hk : y = k
    · subst hk
      rw [lookup_cons_self] at h
      simpa [lookup_cons_self] using h
    · rw [lookup_cons_ne k y v m hk] at h
      rw [List.cons_append, lookup_cons_ne k y v (m ++ n) hk]
      exact ih h

theorem lookup_append_of_none {β : Type} (m n : List (Nat × β)) (y : Nat)
    (h : List.lookup y m = none) :
    List.lookup y (m ++ n) = List.lookup y n := by
  induction m with
  | nil => simp
  | cons p m ih =>
    rcases p with ⟨k, v⟩
    by_cases hk : y = k
    · subst hk
      rw [lookup_cons_self] at h
      exact absurd h (by simp)
    · rw [lookup_cons_ne k y v m hk] at h
      rw [List.cons_append, lookup_cons_ne k y v (m ++ n) hk]
      exact ih h

theorem lookup_replaceYear_eq (m : List (Nat × DlItem)) (y : Nat) (e : DlItem)
    (r : DlItem) (h : List.lookup y m = some r) :
    List.lookup y (replaceYear m y e) = some e := by
  induction m with
  | nil => simp [List.lookup] at h
  | cons p m ih =>
    rcases p with ⟨k, v⟩
    by_cases hk : k = y
    · subst hk
      simp [replaceYear, lookup_cons_self]
    · rw [lookup_cons_ne k y v m (fun hh => hk hh.symm)] at h
      rw [replaceYear, if_neg hk, lookup_cons_ne k y v _ (fun hh => hk hh.symm)]
      exact ih h

theorem lookup_replaceYear_ne (m : List (Nat × DlItem)) (y z : Nat) (e : DlItem)
    (hne : z ≠ y) : List.lookup z (replaceYear m y e) = List.lookup z m := by
  induction m with
  | nil => simp [replaceYear]
  | cons p m ih =>
    rcases p with ⟨k, v⟩
    by_cases hk : k = y
    · subst hk
      rw [replaceYear, if_pos rfl, lookup_cons_ne k z e m hne,
        lookup_cons_ne k z v m hne]
    · by_cases hz : z = k
      · subst hz
        rw [replaceYear, if_neg hk, lookup_cons_self, lookup_cons_self]
      · rw [replaceYear, if_neg hk, lookup_cons_ne k z v _ hz,
          lookup_cons_ne k z v m hz]
        exact ih

theorem mergeYearPhase_keep (cy : Nat) (l : List DlItem) :
    ∀ (m : List (Nat × DlItem)) (y : Nat) (e : DlItem),
      List.lookup y m = some e →
      (∀ d ∈ l, getYearFromExport cy d = some y → endMs d ≤ endMs e) →
      List.lookup y (mergeYearPhase cy m l) = some e := by
  induction l with
  | nil => intro m y e h _; simpa [mergeYearPhase] using h
  | cons d rest ih =>
    intro m y e h hdom
    have hdom2 : ∀ x ∈ rest, getYearFromExport cy x = some y → endMs x ≤ endMs e :=
      fun x hx => hdom x (List.mem_cons_of_mem d hx)
    cases hyd : getYearFromExport cy d with
    | none => simpa [mergeYearPhase, hyd] using ih m y e h hdom2
    | some y2 =>
      by_cases hy2 : y2 = y
      · subst hy2
        have hle : endMs d ≤ endMs e := hdom d (List.mem_cons_self d rest) hyd
        have hnot : ¬ (endMs d > endMs e) := by omega
        simpa [mergeYearPhase, hyd, h, hnot] using ih m y2 e h hdom2
      · cases hm2 : List.lookup y2 m with
        | none =>
          have h2 : List.lookup y (m ++ [(y2, d)]) = some e :=
            lookup_append_of_some m [(y2, d)] y e h
          simpa [mergeYearPhase, hyd, hm2] using ih _ y e h2 hdom2
        | some ex =>
          by_cases hgt : endMs d > endMs ex
          · have h2 : List.lookup y (replaceYear m y2 d) = some e := by
              rw [lookup_replaceYear_ne m y2 y d (fun hh => hy2 hh.symm)]
              exact h
            simpa [mergeYearPhase, hyd, hm2, hgt] using ih _ y e h2 hdom2
          · simpa [mergeYearPhase, hyd, hm2, hgt] using ih m y e h hdom2

theorem mergeYearPhase_max (cy : Nat) (l : List DlItem) :
    ∀ (m : List (Nat × DlItem)) (y : Nat) (e : DlItem),
      e ∈ l → getYearFromExport cy e = some y →
      (∀ d ∈ l, d ≠ e → getYearFromExport cy d = some y → endMs d < endMs e) →
      (∀ r, List.lookup y m = some r → endMs r < endMs e) →
      List.lookup y (mergeYearPhase cy m l) = some e := by
  induction l with
  | nil => intro m y e he; exact absurd he (List.not_mem_nil e)
  | cons d rest ih =>
    intro m y e he hy hdom hm
    have hdom2 : ∀ x ∈ rest, x ≠ e → getYearFromExport cy x = some y →
        endMs x < endMs e :=
      fun x hx => hdom x (List.mem_cons_of_mem d hx)
    by_cases hde : d = e
    · subst hde
      have hkeep : ∀ x ∈ rest, getYearFromExport cy x = some y →
          endMs x ≤ endMs d := by
        intro x hx hxy
        by_cases hxe : x = d
        · subst hxe; exact le_refl _
        · exact le_of_lt (hdom2 x hx hxe hxy)
      cases hm2 : List.lookup y m with
      | none =>
        have hnew : List.lookup y (m ++ [(y, d)]) = some d := by
          rw [lookup_append_of_none m [(y, d)] y hm2]
          simp [List.lookup]
        simpa [mergeYearPhase, hy, hm2] using
          mergeYearPhase_keep cy rest _ y d hnew hkeep
      | some ex =>
        have hgt : endMs d > endMs ex := hm ex hm2
        have hrep : List.lookup y (replaceYear m y d) = some d :=
          lookup_replaceYear_eq m y d ex hm2
        simpa [mergeYearPhase, hy, hm2, hgt] using
          mergeYearPhase_keep cy rest _ y d hrep hkeep
    · have hemem : e ∈ rest := by
        rcases List.mem_cons.mp he with rfl | hmem
        · exact absurd rfl hde
        · exact hmem
      cases hyd : getYearFromExport cy d with
      | none => simpa [mergeYearPhase, hyd] using ih m y e hemem hy hdom2 hm
      | some y2 =>
        by_cases hy2 : y2 = y
        · subst hy2
          have hdlt : endMs d < endMs e :=
            hdom d (List.mem_cons_self d rest) hde hyd
          cases hm2 : List.lookup y2 m with
          | none =>
            have hm3 : ∀ r, List.lookup y2 (m ++ [(y2, d)]) = some r →
                endMs r < endMs e := by
              intro r hr
              rw [lookup_append_of_none m [(y2, d)] y2 hm2] at hr
              simp [List.lookup] at hr
              rw [← hr]
              exact hdlt
            simpa [mergeYearPhase, hyd, hm2] using ih _ y2 e hemem hy hdom2 hm3
          | some ex =>
            by_cases hgt : endMs d > endMs ex
            · have hm3 : ∀ r, List.lookup y2 (replaceYear m y2 d) = some r →
                  endMs r < endMs e := by
                intro r hr
                rw [lookup_replaceYear_eq m y2 d ex hm2] at hr
                injection hr with hr2
                rw [← hr2]
                exact hdlt
              simpa [mergeYearPhase, hyd, hm2, hgt] using
                ih _ y2 e hemem hy hdom2 hm3
            · simpa [mergeYearPhase, hyd, hm2, hgt] using
                ih m y2 e hemem hy hdom2 hm
        · cases hm2 : List.lookup y2 m with
          | none =>
            have hm3 : ∀ r, List.lookup y (m ++ [(y2, d)]) = some r →
                endMs r < endMs e := by
              intro r hr
              cases hmy : List.lookup y m with
              | none =>
                rw [lookup_append_of_none m [(y2, d)] y hmy] at hr
                rw [lookup_cons_ne y2 y d [] (fun hh => hy2 hh.symm)] at hr
                simp [List.lookup] at hr
              | some r2 =>
                rw [lookup_append_of_some m [(y2, d)] y r2 hmy] at hr
                injection hr with hr2
                rw [← hr2]
                exact hm r2 hmy
            simpa [mergeYearPhase, hyd, hm2] using ih _ y e hemem hy hdom2 hm3
          | some ex =>
            by_cases hgt : endMs d > endMs ex
            · have hm3 : ∀ r, List.lookup y (replaceYear m y2 d) = some r →
                  endMs r < endMs e := by
                intro r hr
                rw [lookup_replaceYear_ne m y2 y d (fun hh => hy2 hh.symm)] at hr
                exact hm r hr
              simpa [mergeYearPhase, hyd, hm2, hgt] using
                ih _ y e hemem hy hdom2 hm3
            · simpa [mergeYearPhase, hyd, hm2, hgt] using
                ih m y e hemem hy hdom2 hm

/--
C1 (amended): in `HistoryDownload`'s year merge, for every descriptor list
and year, the descriptor retained for that year is the one with the strictly
latest end date among the descriptors covering that year.
(`HistoryExport`'s `loadExistingExports` instead keeps the first listed
descriptor per year — see the counterexample.)
-/
theorem merge_retains_latest (cy : Nat) (l : List DlItem) (y : Nat)
    (e : DlItem) (he : e ∈ l) (hy : getYearFromExport cy e = some y)
    (hmax : ∀ d ∈ l, d ≠ e → getYearFromExport cy d = some y →
      endMs d < endMs e) :
    List.lookup y (mergeYearPhase cy [] l) = some e :=
  mergeYearPhase_max cy l [] y e he hy hmax (fun r hr => by simp [List.lookup] at hr)

/-- Witness for C1 (amended): of the two 2021 descriptors, the merge retains
`cd2`, the one ending later, in both input orders. -/
theorem merge_retains_latest_witness :
    List.lookup 2021 (mergeYearPhase 2025 [] [cd1, cd2]) = some cd2 ∧
    List.lookup 2021 (mergeYearPhase 2025 [] [cd2, cd1]) = some cd2 :=
  ⟨merge_retains_latest 2025 [cd1, cd2] 2021 cd2 (by decide) (by decide)
      (by decide),
    merge_retains_latest 2025 [cd2, cd1] 2021 cd2 (by decide) (by decide)
      (by decide)⟩

/-! ### C9 (amended): round trip for trim-invariant, newline-free values -/

theorem dropWhile_eq_self_of_head_not_ws (c : Char) (t : JStr)
    (h : isWs c = false) : (c :: t).dropWhile isWs = c :: t := by
  simp [List.dropWhile_cons, h]

theorem head_not_ws_of_dropWhile_eq_self (c : Char) (t : JStr)
    (h : (c :: t).dropWhile isWs = c :: t) : isWs c = false := by
  by_cases hw : isWs c
  · exfalso
    rw [List.dropWhile_cons, if_pos hw] at h
    have := congrArg List.length h
    have hle := (List.dropWhile_sublist (l := t) isWs).length_le
    simp at this
    omega
  · simpa using hw

theorem trimInv_parts (l : JStr) (h : jsTrim l = l) :
    l.dropWhile isWs = l ∧ l.reverse.dropWhile isWs = l.reverse := by
  have hlen1 : ((l.dropWhile isWs).reverse.dropWhile isWs).length ≤
      (l.dropWhile isWs).length := by
    have := (List.dropWhile_sublist (l := (l.dropWhile isWs).reverse) isWs).length_le
    simpa using this
  have hlen2 : (l.dropWhile isWs).length ≤ l.length :=
    (List.dropWhile_sublist (l := l) isWs).length_le
  have hlen0 : (jsTrim l).length = l.length := by rw [h]
  have hlen3 : (jsTrim l).length ≤ (l.dropWhile isWs).length := by
    unfold jsTrim
    simpa using hlen1
  have hfst : l.dropWhile isWs = l := by
    have hsuffix : (l.dropWhile isWs).IsSuffix l := List.dropWhile_suffix isWs
    exact hsuffix.eq_of_length (by omega)
  constructor
  · exact hfst
  · have h2 : (l.reverse.dropWhile isWs).reverse = l := by
      have := h
      unfold jsTrim at this
      rw [hfst] at this
      exact this
    have : l.reverse.dropWhile isWs = l.reverse := by
      have := congrArg List.reverse h2
      simpa using this
    exact this

theorem trimInv_of_edges (l : JStr) (h1 : l.dropWhile isWs = l)
    (h2 : l.reverse.dropWhile isWs = l.reverse) : jsTrim l = l := by
  unfold jsTrim
  rw [h1, h2, List.reverse_reverse]

theorem parse_unquoted (v : JStr) (h : ∀ c ∈ v, ¬ (c = '"') ∧ ¬ (c = ',')) :
    ∀ (rest cur : JStr) (acc : List JStr),
      parseCSVLineAux (v ++ rest) false cur acc =
        parseCSVLineAux rest false (cur ++ v) acc := by
  induction v with
  | nil => intro rest cur acc; simp
  | cons c v ih =>
    intro rest cur acc
    have hc := h c (List.mem_cons_self c v)
    have hv : ∀ x ∈ v, ¬ (x = '"') ∧ ¬ (x = ',') :=
      fun x hx => h x (List.mem_cons_of_mem c hx)
    rw [List.cons_append]
    rw [show parseCSVLineAux (c :: (v ++ rest)) false cur acc =
        parseCSVLineAux (v ++ rest) false (cur ++ [c]) acc from by
      simp [parseCSVLineAux, hc.1, hc.2]]
    rw [ih hv rest (cur ++ [c]) acc]
    simp

theorem parse_quoted (v : JStr) :
    ∀ (rest cur : JStr) (acc : List JStr), rest.head? ≠ some '"' →
      parseCSVLineAux (escQuotes v ++ '"' :: rest) true cur acc =
        parseCSVLineAux rest false (cur ++ v) acc := by
  induction v with
  | nil =>
    intro rest cur acc hhead
    cases rest with
    | nil => simp [escQuotes, parseCSVLineAux]
    | cons c2 r2 =>
      have hc2 : ¬ (c2 = '"') := by
        intro hh
        exact hhead (by rw [hh]; rfl)
      simp [escQuotes, parseCSVLineAux, hc2]
  | cons c v ih =>
    intro rest cur acc hhead
    by_cases hc : c = '"'
    · subst hc
      rw [show escQuotes ('"' :: v) = '"' :: '"' :: escQuotes v from by
        simp [escQuotes]]
      rw [List.cons_append, List.cons_append]
      rw [show parseCSVLineAux ('"' :: '"' :: (escQuotes v ++ '"' :: rest))
          true cur acc =
          parseCSVLineAux (escQuotes v ++ '"' :: rest) true (cur ++ ['"']) acc
          from by simp [parseCSVLineAux]]
      rw [ih rest (cur ++ ['"']) acc hhead]
      simp
    · rw [show escQuotes (c :: v) = c :: escQuotes v from by
        simp [escQuotes, hc]]
      rw [List.cons_append]
      by_cases hcomma : c = ','
      · subst hcomma
        rw [show parseCSVLineAux (',' :: (escQuotes v ++ '"' :: rest))
            true cur acc =
            parseCSVLineAux (escQuotes v ++ '"' :: rest) true (cur ++ [','])
              acc from by simp [parseCSVLineAux]]
        rw [ih rest (cur ++ [',']) acc hhead]
        simp
      · rw [show parseCSVLineAux (c :: (escQuotes v ++ '"' :: rest))
            true cur acc =
            parseCSVLineAux (escQuotes v ++ '"' :: rest) true (cur ++ [c])
              acc from by simp [parseCSVLineAux, hc, hcomma]]
        rw [ih rest (cur ++ [c]) acc hhead]
        simp

theorem no_special_of_not_contains (v : JStr)
    (h : (v.contains ',' || v.contains '"') = false) :
    ∀ c ∈ v, ¬ (c = '"') ∧ ¬ (c = ',') := by
  intro c hc
  rw [Bool.or_eq_false_iff] at h
  constructor
  · intro hq
    subst hq
    have h2 : v.contains '"' = true :=
      List.contains_iff_exists_mem_beq.mpr ⟨'"', hc, by simp⟩
    rw [h.2] at h2
    exact Bool.false_ne_true h2
  · intro hq
    subst hq
    have h2 : v.contains ',' = true :=
      List.contains_iff_exists_mem_beq.mpr ⟨',', hc, by simp⟩
    rw [h.1] at h2
    exact Bool.false_ne_true h2

theorem parse_field_mid (v : JStr) (htr : jsTrim v = v) (rest : JStr)
    (acc : List JStr) :
    parseCSVLineAux (encodeField v ++ ',' :: rest) false [] acc =
      parseCSVLineAux rest false [] (acc ++ [v]) := by
  by_cases hq : (v.contains ',' || v.contains '"') = true
  · rw [encodeField, if_pos hq]
    rw [show ('"' :: (escQuotes v ++ ['"'])) ++ ',' :: rest =
        '"' :: (escQuotes v ++ '"' :: (',' :: rest)) from by simp]
    rw [show parseCSVLineAux ('"' :: (escQuotes v ++ '"' :: (',' :: rest)))
        false [] acc =
        parseCSVLineAux (escQuotes v ++ '"' :: (',' :: rest)) true [] acc
        from by simp [parseCSVLineAux]]
    rw [parse_quoted v (',' :: rest) [] acc (by simp)]
    rw [show parseCSVLineAux (',' :: rest) false ([] ++ v) acc =
        parseCSVLineAux rest false [] (acc ++ [jsTrim ([] ++ v)]) from by
      simp [parseCSVLineAux]]
    rw [List.nil_append, htr]
  · rw [encodeField, if_neg hq]
    rw [parse_unquoted v (no_special_of_not_contains v (by simpa using hq))
      (',' :: rest) [] acc]
    rw [show parseCSVLineAux (',' :: rest) false ([] ++ v) acc =
        parseCSVLineAux rest false [] (acc ++ [jsTrim ([] ++ v)]) from by
      simp [parseCSVLineAux]]
    rw [List.nil_append, htr]

theorem parse_field_last (v : JStr) (htr : jsTrim v = v) (acc : List JStr) :
    parseCSVLineAux (encodeField v) false [] acc = acc ++ [v] := by
  by_cases hq : (v.contains ',' || v.contains '"') = true
  · rw [encodeField, if_pos hq]
    rw [show ('"' :: (escQuotes v ++ ['"'])) =
        '"' :: (escQuotes v ++ '"' :: ([] : JStr)) from by simp]
    rw [show parseCSVLineAux ('"' :: (escQuotes v ++ '"' :: ([] : JStr)))
        false [] acc =
        parseCSVLineAux (escQuotes v ++ '"' :: ([] : JStr)) true [] acc
        from by simp [parseCSVLineAux]]
    rw [parse_quoted v [] [] acc (by simp)]
    simp [parseCSVLineAux, htr]
  · rw [encodeField, if_neg hq]
    have := parse_unquoted v (no_special_of_not_contains v (by simpa using hq))
      [] [] acc
    rw [List.append_nil] at this
    rw [this]
    simp [parseCSVLineAux, htr]

theorem parse_encodeLine_aux (vs : List JStr) (hne : vs ≠ [])
    (htr : ∀ v ∈ vs, jsTrim v = v) :
    ∀ acc, parseCSVLineAux (encodeLine vs) false [] acc = acc ++ vs := by
  induction vs with
  | nil => exact absurd rfl hne
  | cons v rest ih =>
    intro acc
    cases rest with
    | nil =>
      rw [show encodeLine [v] = encodeField v from rfl]
      exact parse_field_last v (htr v (List.mem_cons_self v [])) acc
    | cons w rest2 =>
      rw [show encodeLine (v :: w :: rest2) =
          encodeField v ++ ',' :: encodeLine (w :: rest2) from rfl]
      rw [parse_field_mid v (htr v (List.mem_cons_self v (w :: rest2))) _ acc]
      rw [ih (by simp) (fun x hx => htr x (List.mem_cons_of_mem v hx))
        (acc ++ [v])]
      simp

theorem parse_encodeLine (vs : List JStr) (hne : vs ≠ [])
    (htr : ∀ v ∈ vs, jsTrim v = v) :
    parseCSVLine (encodeLine vs) = vs := by
  rw [parseCSVLine, parse_encodeLine_aux vs hne htr []]
  simp

theorem encodeField_nil : encodeField ([] : JStr) = [] := by decide

theorem encodeField_ne_nil (v : JStr) (h : v ≠ []) : encodeField v ≠ [] := by
  rw [encodeField]
  by_cases hq : (v.contains ',' || v.contains '"') = true
  · rw [if_pos hq]
    simp
  · rw [if_neg hq]
    exact h

theorem head_not_ws_of_trimInv (c : Char) (t : JStr)
    (h : jsTrim (c :: t) = c :: t) : isWs c = false :=
  head_not_ws_of_dropWhile_eq_self c t (trimInv_parts (c :: t) h).1

theorem encodeLine_head_not_ws (v : JStr) (rest : List JStr)
    (htr : ∀ x ∈ v :: rest, jsTrim x = x)
    (hnb : v ≠ [] ∨ rest ≠ []) :
    ∃ c t, encodeLine (v :: rest) = c :: t ∧ isWs c = false := by
  by_cases hv : v = []
  · subst hv
    rcases hnb with hv2 | hr
    · exact absurd rfl hv2
    · cases rest with
      | nil => exact absurd rfl hr
      | cons w rest2 =>
        refine ⟨',', encodeLine (w :: rest2), ?_, by decide⟩
        rw [show encodeLine ([] :: w :: rest2) =
            encodeField [] ++ ',' :: encodeLine (w :: rest2) from rfl,
          encodeField_nil]
        rfl
  · cases hv2 : v with
    | nil => exact absurd hv2 hv
    | cons c0 t0 =>
      by_cases hq : (v.contains ',' || v.contains '"') = true
      · have hf : encodeField v = '"' :: (escQuotes v ++ ['"']) := by
          rw [encodeField, if_pos hq]
        cases rest with
        | nil => exact ⟨'"', escQuotes v ++ ['"'], by rw [← hv2]; exact hf, by decide⟩
        | cons w rest2 =>
          refine ⟨'"', (escQuotes v ++ ['"']) ++ ',' :: encodeLine (w :: rest2),
            ?_, by decide⟩
          rw [← hv2]
          rw [show encodeLine (v :: w :: rest2) =
              encodeField v ++ ',' :: encodeLine (w :: rest2) from rfl, hf]
          rfl
      · have hf : encodeField v = v := by
          rw [encodeField, if_neg hq]
        have hws : isWs c0 = false := by
          apply head_not_ws_of_trimInv c0 t0
          rw [← hv2]
          exact htr v (List.mem_cons_self v rest)
        cases rest with
        | nil =>
          refine ⟨c0, t0, ?_, hws⟩
          rw [← hv2]
          rw [show encodeLine [v] = encodeField v from rfl, hf, hv2]
        | cons w rest2 =>
          refine ⟨c0, t0 ++ ',' :: encodeLine (w :: rest2), ?_, hws⟩
          rw [← hv2]
          rw [show encodeLine (v :: w :: rest2) =
              encodeField v ++ ',' :: encodeLine (w :: rest2) from rfl, hf, hv2]
          rfl

theorem rev_head_not_ws_of_trimInv (v : JStr) (hne : v ≠ [])
    (htr : jsTrim v = v) :
    ∃ c t, v.reverse = c :: t ∧ isWs c = false := by
  have h2 := (trimInv_parts v htr).2
  cases hrev : v.reverse with
  | nil =>
    exact absurd (by simpa using congrArg List.reverse hrev) hne
  | cons c t =>
    rw [hrev] at h2
    exact ⟨c, t, rfl, head_not_ws_of_dropWhile_eq_self c t h2⟩

theorem encodeField_rev_head (v : JStr) (hne : v ≠ []) (htr : jsTrim v = v) :
    ∃ c t, (encodeField v).reverse = c :: t ∧ isWs c = false := by
  by_cases hq : (v.contains ',' || v.contains '"') = true
  · refine ⟨'"', (escQuotes v).reverse ++ ['"'], ?_, by decide⟩
    rw [encodeField, if_pos hq]
    simp
  · rw [encodeField, if_neg hq]
    exact rev_head_not_ws_of_trimInv v hne htr

theorem encodeLine_rev_head_not_ws (vs : List JStr) (hne : vs ≠ [])
    (htr : ∀ x ∈ vs, jsTrim x = x)
    (hnb : (∀ x ∈ vs, x ≠ []) ∨ 2 ≤ vs.length) :
    ∃ c t, (encodeLine vs).reverse = c :: t ∧ isWs c = false := by
  induction vs with
  | nil => exact absurd rfl hne
  | cons v rest ih =>
    cases rest with
    | nil =>
      have hv : v ≠ [] := by
        rcases hnb with hall | hlen
        · exact hall v (List.mem_cons_self v [])
        · simp at hlen
      rw [show encodeLine [v] = encodeField v from rfl]
      exact encodeField_rev_head v hv (htr v (List.mem_cons_self v []))
    | cons w rest2 =>
      rw [show encodeLine (v :: w :: rest2) =
          encodeField v ++ ',' :: encodeLine (w :: rest2) from rfl]
      by_cases htail : encodeLine (w :: rest2) = []
      · refine ⟨',', (encodeField v).reverse, ?_, by decide⟩
        rw [htail]
        simp
      · have htr2 : ∀ x ∈ w :: rest2, jsTrim x = x :=
          fun x hx => htr x (List.mem_cons_of_mem v hx)
        have hnb2 : (∀ x ∈ w :: rest2, x ≠ []) ∨ 2 ≤ (w :: rest2).length := by
          cases rest2 with
          | nil =>
            left
            intro x hx
            rcases List.mem_cons.mp hx with rfl | hx2
            · intro hxnil
              subst hxnil
              exact htail (by rw [show encodeLine [([] : JStr)] =
                  encodeField [] from rfl, encodeField_nil])
            · exact absurd hx2 (List.not_mem_nil x)
          | cons u rest3 =>
            right
            simp
        obtain ⟨c, t, hct, hcws⟩ := ih (by simp) htr2 hnb2
        refine ⟨c, t ++ ',' :: (encodeField v).reverse, ?_, hcws⟩
        rw [List.reverse_append, List.reverse_cons, hct]
        simp

theorem mem_escQuotes (c : Char) (v : JStr) (h : c ∈ escQuotes v) :
    c ∈ v ∨ c = '"' := by
  induction v with
  | nil => simp [escQuotes] at h
  | cons d v ih =>
    rw [escQuotes] at h
    by_cases hd : d = '"'
    · rw [if_pos hd] at h
      rcases List.mem_cons.mp h with rfl | h2
      · exact Or.inr rfl
      · rcases List.mem_cons.mp h2 with rfl | h3
        · exact Or.inr rfl
        · rcases ih h3 with h4 | h4
          · exact Or.inl (List.mem_cons_of_mem d h4)
          · exact Or.inr h4
    · rw [if_neg hd] at h
      rcases List.mem_cons.mp h with rfl | h2
      · exact Or.inl (List.mem_cons_self c v)
      · rcases ih h2 with h4 | h4
        · exact Or.inl (List.mem_cons_of_mem d h4)
        · exact Or.inr h4

theorem nl_not_mem_encodeField (v : JStr) (h : '\n' ∉ v) :
    '\n' ∉ encodeField v := by
  rw [encodeField]
  by_cases hq : (v.contains ',' || v.contains '"') = true
  · rw [if_pos hq]
    intro hmem
    rcases List.mem_cons.mp hmem with heq | hmem2
    · exact absurd heq (by decide)
    · rcases List.mem_append.mp hmem2 with hmem3 | hmem3
      · rcases mem_escQuotes _ _ hmem3 with h4 | h4
        · exact h h4
        · exact absurd h4 (by decide)
      · simp at hmem3
  · rw [if_neg hq]
    exact h

theorem nl_not_mem_encodeLine (vs : List JStr) (h : ∀ v ∈ vs, '\n' ∉ v) :
    '\n' ∉ encodeLine vs := by
  induction vs with
  | nil => simp [encodeLine]
  | cons v rest ih =>
    cases rest with
    | nil =>
      rw [show encodeLine [v] = encodeField v from rfl]
      exact nl_not_mem_encodeField v (h v (List.mem_cons_self v []))
    | cons w rest2 =>
      rw [show encodeLine (v :: w :: rest2) =
          encodeField v ++ ',' :: encodeLine (w :: rest2) from rfl]
      intro hmem
      rcases List.mem_append.mp hmem with h2 | h2
      · exact nl_not_mem_encodeField v (h v (List.mem_cons_self v (w :: rest2))) h2
      · rcases List.mem_cons.mp h2 with heq | h3
        · exact absurd heq (by decide)
        · exact ih (fun x hx => h x (List.mem_cons_of_mem v hx)) h3

theorem splitNl_joinNl (ls : List JStr) (hne : ls ≠ [])
    (hn : ∀ l ∈ ls, '\n' ∉ l) : splitNl (joinNl ls) = ls := by
  induction ls with
  | nil => exact absurd rfl hne
  | cons l rest ih =>
    cases rest with
    | nil =>
      rw [show joinNl [l] = l from rfl]
      exact splitNl_of_not_mem l (hn l (List.mem_cons_self l []))
    | cons l2 rest2 =>
      rw [show joinNl (l :: l2 :: rest2) = l ++ '\n' :: joinNl (l2 :: rest2)
        from rfl]
      have hrec : splitNl (joinNl (l2 :: rest2)) = l2 :: rest2 :=
        ih (by simp) (fun x hx => hn x (List.mem_cons_of_mem l hx))
      have h2 : splitNl ('\n' :: joinNl (l2 :: rest2)) =
          [] :: l2 :: rest2 := by
        simp [splitNl, hrec]
      have := splitNl_append_cons l ('\n' :: joinNl (l2 :: rest2)) []
        (l2 :: rest2) (hn l (List.mem_cons_self l (l2 :: rest2))) h2
      simpa using this

theorem encodeLine_trimInv (vs : List JStr) (hne : vs ≠ [])
    (htr : ∀ x ∈ vs, jsTrim x = x)
    (hnb : (∀ x ∈ vs, x ≠ []) ∨ 2 ≤ vs.length) :
    jsTrim (encodeLine vs) = encodeLine vs ∧ encodeLine vs ≠ [] := by
  cases vs with
  | nil => exact absurd rfl hne
  | cons v rest =>
    have hhead : v ≠ [] ∨ rest ≠ [] := by
      rcases hnb with hall | hlen
      · exact Or.inl (hall v (List.mem_cons_self v rest))
      · right
        intro hr
        subst hr
        simp at hlen
    obtain ⟨c, t, hct, hcws⟩ := encodeLine_head_not_ws v rest htr hhead
    obtain ⟨c2, t2, hct2, hcws2⟩ :=
      encodeLine_rev_head_not_ws (v :: rest) (by simp) htr hnb
    constructor
    · apply trimInv_of_edges
      · rw [hct]
        exact dropWhile_eq_self_of_head_not_ws c t hcws
      · rw [hct2]
        exact dropWhile_eq_self_of_head_not_ws c2 t2 hcws2
    · rw [hct]
      simp

theorem parseCsvLines_encoded (headers : List JStr)
    (records : List (List JStr))
    (hh : headers ≠ [])
    (hlen : ∀ r ∈ records, r.length = headers.length)
    (htr : ∀ r ∈ records, ∀ v ∈ r, jsTrim v = v)
    (hline : ∀ r ∈ records,
      jsTrim (encodeLine r) = encodeLine r ∧ encodeLine r ≠ []) :
    parseCsvLines headers (records.map encodeLine) =
      (records.map (fun r => buildRow headers r), 0) := by
  induction records with
  | nil => simp [parseCsvLines]
  | cons r rest ih =>
    have hrne : r ≠ [] := by
      intro hr
      have hl := hlen r (List.mem_cons_self r rest)
      rw [hr] at hl
      cases headers with
      | nil => exact hh rfl
      | cons a t => simp at hl
    have hmem := List.mem_cons_self r rest
    have hlineR := hline r hmem
    have hvals : parseCSVLine (encodeLine r) = r :=
      parse_encodeLine r hrne (htr r hmem)
    rw [List.map_cons, parseCsvLines]
    simp only [hlineR.1, if_neg hlineR.2, hvals]
    rw [ih (fun x hx => hlen x (List.mem_cons_of_mem r hx))
      (fun x hx => htr x (List.mem_cons_of_mem r hx))
      (fun x hx => hline x (List.mem_cons_of_mem r hx))]
    have hdist : Nat.dist r.length headers.length ≤ 2 := by
      rw [hlen r hmem]
      simp [Nat.dist_self]
    rw [if_pos hdist]
    simp

/--
C9 (amended): serializing records whose values are newline-free and
trim-invariant (no leading or trailing whitespace), under nonempty
trim-invariant newline-free headers, and parsing the result back yields the
original sequence of mappings, provided no serialized data line is entirely
blank (at least two columns, or all values nonempty).  (Whitespace-padded
values do not round-trip because the parser trims every field — see the
counterexample.)
-/
theorem csv_round_trip (headers : List JStr) (records : List (List JStr))
    (hh : headers ≠ [])
    (hhead : ∀ h ∈ headers, jsTrim h = h ∧ h ≠ [] ∧ '\n' ∉ h)
    (hlen : ∀ r ∈ records, r.length = headers.length)
    (hval : ∀ r ∈ records, ∀ v ∈ r, jsTrim v = v ∧ '\n' ∉ v)
    (hnb : 2 ≤ headers.length ∨ ∀ r ∈ records, ∀ v ∈ r, v ≠ []) :
    (parseCsv (serializeCsv headers records)).1 =
      records.map (fun r => buildRow headers r) := by
  have hheadline : jsTrim (encodeLine headers) = encodeLine headers ∧
      encodeLine headers ≠ [] := by
    apply encodeLine_trimInv headers hh (fun x hx => (hhead x hx).1)
    exact Or.inl (fun x hx => (hhead x hx).2.1)
  have hdataline : ∀ r ∈ records,
      jsTrim (encodeLine r) = encodeLine r ∧ encodeLine r ≠ [] := by
    intro r hr
    have hrne : r ≠ [] := by
      intro hrr
      have hl := hlen r hr
      rw [hrr] at hl
      cases headers with
      | nil => exact hh rfl
      | cons a t => simp at hl
    apply encodeLine_trimInv r hrne (fun x hx => (hval r hr x hx).1)
    rcases hnb with hlen2 | hall
    · right
      rw [hlen r hr]
      exact hlen2
    · exact Or.inl (fun x hx => hall r hr x hx)
  have hnl : ∀ l ∈ encodeLine headers :: records.map encodeLine, '\n' ∉ l := by
    intro l hl
    rcases List.mem_cons.mp hl with rfl | hl2
    · exact nl_not_mem_encodeLine headers (fun x hx => (hhead x hx).2.2)
    · obtain ⟨r, hr, rfl⟩ := List.mem_map.mp hl2
      exact nl_not_mem_encodeLine r (fun x hx => (hval r hr x hx).2)
  have hsplit : splitNl (serializeCsv headers records) =
      encodeLine headers :: records.map encodeLine := by
    rw [serializeCsv]
    exact splitNl_joinNl _ (by simp) hnl
  have hfilter : (splitNl (serializeCsv headers records)).filter
      (fun l => !(jsTrim l).isEmpty) =
      encodeLine headers :: records.map encodeLine := by
    rw [hsplit]
    apply List.filter_eq_self.mpr
    intro l hl
    have hli : jsTrim l = l ∧ l ≠ [] := by
      rcases List.mem_cons.mp hl with rfl | hl2
      · exact hheadline
      · obtain ⟨r, hr, rfl⟩ := List.mem_map.mp hl2
        exact hdataline r hr
    rw [hli.1]
    cases hcase : l with
    | nil => exact absurd hcase hli.2
    | cons c t => rfl
  rw [parseCsv]
  simp only [hfilter]
  cases records with
  | nil => simp
  | cons r rest =>
    have hlen2 : ¬ ((encodeLine headers :: (r :: rest).map encodeLine).length < 2) := by
      simp
    rw [if_neg hlen2]
    have hheaders : parseCSVLine (encodeLine headers) = headers :=
      parse_encodeLine headers hh (fun x hx => (hhead x hx).1)
    simp only [hheaders]
    rw [parseCsvLines_encoded headers (r :: rest) hh hlen
      (fun x hx y hy => (hval x hx y hy).1) hdataline]

/-- Witness for C9 (amended): headers `x,y` with the single record
`{x: "a", y: "b,c"}` (the second value needs quoting) round-trips. -/
theorem csv_round_trip_witness :
    (parseCsv (serializeCsv [js "x", js "y"] [[js "a", js "b,c"]])).1 =
      [[(js "x", js "a"), (js "y", js "b,c")]] := by
  have h := csv_round_trip [js "x", js "y"] [[js "a", js "b,c"]]
    (by decide) (by decide) (by decide) (by decide) (Or.inl (by decide))
  rw [h]
  decide

end T212
